import Mathlib

set_option maxRecDepth 40000

/-!
Verification development for the game-engine repository (snake, racing and
bubble-shooter engines).  Every definition below is a shallow embedding of the
corresponding JavaScript function of the source; the theorems settle the
testable properties stated in the specification.

The ambient random source (`Math.random`) is modelled as an explicit stream of
pre-drawn values passed to the functions that consume randomness.
-/

namespace Snake

/-- A grid cell / direction vector, the `{x, y}` records of the snake engine. -/
structure Pos where
  x : Int
  y : Int
deriving DecidableEq, Repr

instance : Inhabited Pos := ⟨⟨0, 0⟩⟩

/-- The toroidal wrap `((v % n) + n) % n` of the engine, with `%` the
JavaScript remainder (truncated division, `Int.tmod`). -/
def wrap (a n : Int) : Int := (Int.tmod a n + n).tmod n

/-- Engine state of `createSnakeEngine` (wrap-around variant): grid extents,
snake segments (head first), current and pending direction, food cell, score,
tick counter and the terminal flag. -/
structure State where
  cols : Int
  rows : Int
  snake : List Pos
  dir : Pos
  pendingDir : Option Pos
  food : Option Pos
  score : Nat
  ticks : Nat
  gameOver : Bool
deriving DecidableEq, Repr

/-- `state.snake.some((seg) => seg.x === x && seg.y === y)`. -/
def overlapsSnake (snake : List Pos) (p : Pos) : Bool :=
  snake.any fun seg => seg.x == p.x && seg.y == p.y

/-- The retry loop of `placeFood`: draw `u k`, accept it unless it overlaps
the snake; after 2000 failed draws the loop breaks and the following draw is
accepted unconditionally.  `fuel` counts the draws still subject to the
overlap test. -/
def placeFoodAux (snake : List Pos) (u : Nat → Pos) : Nat → Nat → Pos
  | 0, k => u k
  | fuel + 1, k =>
    if overlapsSnake snake (u k) then placeFoodAux snake u fuel (k + 1) else u k

/-- `placeFood`: sample food cells from the random stream `u` until one does
not overlap the snake, giving up after 2000 retries (`tries > 2000` break). -/
def placeFood (snake : List Pos) (u : Nat → Pos) : Pos :=
  placeFoodAux snake u 2000 0

/-- Start of `step`: apply the pending direction unless it is a 180-degree
reversal of the current direction. -/
def applyPending (s : State) : State :=
  match s.pendingDir with
  | none => s
  | some nd =>
    if s.dir.x + nd.x = 0 ∧ s.dir.y + nd.y = 0 then { s with pendingDir := none }
    else { s with dir := nd, pendingDir := none }

/-- `step()` of the wrap-around snake engine: no-op when game over, apply the
pending direction, compute the wrapped next head cell, end the game on
self-collision against the pre-move body, otherwise prepend the head and
either grow (food hit: score + 1, resample food) or drop the tail. -/
def step (u : Nat → Pos) (s : State) : State :=
  if s.gameOver then s
  else
    let s1 := applyPending s
    let head := s1.snake.headI
    let nx := wrap (head.x + s1.dir.x) s1.cols
    let ny := wrap (head.y + s1.dir.y) s1.rows
    if s1.snake.tail.any (fun seg => seg.x == nx && seg.y == ny) then
      { s1 with gameOver := true }
    else
      let newSnake : List Pos := ⟨nx, ny⟩ :: s1.snake
      match s1.food with
      | some f =>
        if f.x = nx ∧ f.y = ny then
          { s1 with snake := newSnake, score := s1.score + 1,
                    food := some (placeFood newSnake u), ticks := s1.ticks + 1 }
        else
          { s1 with snake := newSnake.dropLast, ticks := s1.ticks + 1 }
      | none => { s1 with snake := newSnake.dropLast, ticks := s1.ticks + 1 }

/-- A state in which the next head cell leaves the grid on the left and the
wrapped cell is occupied by a body segment: three cells of a `3 × 1` torus are
filled and the head moves left. -/
def wrapClashState : State :=
  { cols := 3, rows := 1
    snake := [⟨0, 0⟩, ⟨1, 0⟩, ⟨2, 0⟩]
    dir := ⟨-1, 0⟩
    pendingDir := none
    food := some ⟨1, 0⟩
    score := 0, ticks := 0, gameOver := false }

/-- Witness for the amended C1 theorem: a `4 × 4` state whose head at `(3,2)`
moves right off the edge and wraps to `(0,2)`. -/
def wrapFreeState : State :=
  { cols := 4, rows := 4
    snake := [⟨3, 2⟩, ⟨2, 2⟩, ⟨1, 2⟩]
    dir := ⟨1, 0⟩
    pendingDir := none
    food := some ⟨0, 0⟩
    score := 2, ticks := 9, gameOver := false }

/-- Witness state for C5: the head at `(2,2)` moves down into `(2,3)`, which
is the fourth body segment. -/
def selfHitState : State :=
  { cols := 5, rows := 5
    snake := [⟨2, 2⟩, ⟨3, 2⟩, ⟨3, 3⟩, ⟨2, 3⟩, ⟨1, 3⟩]
    dir := ⟨0, 1⟩
    pendingDir := none
    food := some ⟨0, 0⟩
    score := 7, ticks := 31, gameOver := false }

/-- A `1 × 1` torus whose single cell holds both the snake head and the food:
every random draw lands on the snake, so the retry loop exhausts. -/
def fullBoardState : State :=
  { cols := 1, rows := 1
    snake := [⟨0, 0⟩]
    dir := ⟨1, 0⟩
    pendingDir := none
    food := some ⟨0, 0⟩
    score := 0, ticks := 0, gameOver := false }

/-- Witness state for the amended C6: on a `3 × 1` torus the head `(0,0)`
moves onto the food at `(1,0)`; the first random draw `(2,0)` is free. -/
def growthState : State :=
  { cols := 3, rows := 1
    snake := [⟨0, 0⟩]
    dir := ⟨1, 0⟩
    pendingDir := none
    food := some ⟨1, 0⟩
    score := 4, ticks := 17, gameOver := false }

theorem applyPending_snake (s : State) : (applyPending s).snake = s.snake := by
  unfold applyPending
  cases s.pendingDir with
  | none => rfl
  | some nd => split <;> first | rfl | (split <;> rfl)

theorem applyPending_cols (s : State) : (applyPending s).cols = s.cols := by
  unfold applyPending
  cases s.pendingDir with
  | none => rfl
  | some nd => split <;> first | rfl | (split <;> rfl)

theorem applyPending_rows (s : State) : (applyPending s).rows = s.rows := by
  unfold applyPending
  cases s.pendingDir with
  | none => rfl
  | some nd => split <;> first | rfl | (split <;> rfl)

theorem applyPending_gameOver (s : State) : (applyPending s).gameOver = s.gameOver := by
  unfold applyPending
  cases s.pendingDir with
  | none => rfl
  | some nd => split <;> first | rfl | (split <;> rfl)

theorem applyPending_food (s : State) : (applyPending s).food = s.food := by
  unfold applyPending
  cases s.pendingDir with
  | none => rfl
  | some nd => split <;> first | rfl | (split <;> rfl)

theorem applyPending_score (s : State) : (applyPending s).score = s.score := by
  unfold applyPending
  cases s.pendingDir with
  | none => rfl
  | some nd => split <;> first | rfl | (split <;> rfl)

theorem applyPending_ticks (s : State) : (applyPending s).ticks = s.ticks := by
  unfold applyPending
  cases s.pendingDir with
  | none => rfl
  | some nd => split <;> first | rfl | (split <;> rfl)

theorem tmod_emod (a n : Int) : a.tmod n % n = a % n := by
  rw [Int.tmod_def, Int.sub_eq_add_neg, ← Int.mul_neg, Int.add_mul_emod_self_left]

theorem neg_lt_tmod (a : Int) {n : Int} (hn : 0 < n) : -n < a.tmod n := by
  cases a with
  | ofNat m =>
    have h0 : (0 : Int) ≤ Int.tmod (Int.ofNat m) n :=
      Int.tmod_nonneg _ (Int.ofNat_nonneg m)
    omega
  | negSucc m =>
    cases n with
    | ofNat k =>
      have hk : 0 < k := Int.ofNat_pos.mp hn
      have hdef : Int.tmod (Int.negSucc m) (Int.ofNat k) = -Int.ofNat ((m + 1) % k) := rfl
      have hlt : (m + 1) % k < k := Nat.mod_lt _ hk
      rw [hdef]
      exact neg_lt_neg (Int.ofNat_lt.mpr hlt)
    | negSucc k => exact absurd hn (not_lt.mpr (le_of_lt (Int.negSucc_lt_zero k)))

/-- The JavaScript double-mod normalisation agrees with Euclidean mod for a
positive modulus. -/
theorem wrap_eq_emod (a n : Int) (hn : 0 < n) : wrap a n = a % n := by
  unfold wrap
  have h1 : -n < a.tmod n := neg_lt_tmod a hn
  have h2 : (0 : Int) ≤ a.tmod n + n := by omega
  rw [Int.tmod_eq_emod h2 (le_of_lt hn)]
  have h3 : (a.tmod n + n) % n = a.tmod n % n := by
    have h4 := Int.add_mul_emod_self_left (a := a.tmod n) (b := n) (c := 1)
    rw [Int.mul_one] at h4
    exact h4
  rw [h3, tmod_emod]

theorem wrap_nonneg (a n : Int) (hn : 0 < n) : 0 ≤ wrap a n := by
  rw [wrap_eq_emod a n hn]; exact Int.emod_nonneg a (by omega)

theorem wrap_lt (a n : Int) (hn : 0 < n) : wrap a n < n := by
  rw [wrap_eq_emod a n hn]; exact Int.emod_lt_of_pos a hn

/-- C1, counterexample.  The claim asserts that for EVERY snake state a step
whose next head coordinate leaves the grid wraps the head to the opposite edge
with `gameOver` still false.  In `wrapClashState` the next head coordinate
`-1` leaves the grid, the wrapped cell `(2,0)` is a body segment, and `step`
instead sets `gameOver := true` and leaves the head in place, refuting the
claim as stated. -/
theorem snake_wrap_counterexample :
    wrapClashState.snake.headI.x + wrapClashState.dir.x < 0 ∧
    wrap (wrapClashState.snake.headI.x + wrapClashState.dir.x) wrapClashState.cols = 2 ∧
    (step (fun _ => ⟨0, 0⟩) wrapClashState).gameOver = true ∧
    (step (fun _ => ⟨0, 0⟩) wrapClashState).snake.headI.x = 0 := by
  decide

/-- C1, amended.  For every grid size, state and direction, when the wrapped
next head cell is not occupied by a pre-move body segment, `step` places the
head exactly at the double-mod wrapped coordinates and `gameOver` stays false;
moreover the wrapped coordinates always lie inside the grid, so no
out-of-bounds head is ever produced by a moving step. -/
theorem snake_wrap_amended (s : State) (u : Nat → Pos)
    (hgo : s.gameOver = false) (hne : s.snake ≠ [])
    (hcols : 0 < s.cols) (hrows : 0 < s.rows)
    (hfree : (applyPending s).snake.tail.any (fun seg =>
        seg.x == wrap (s.snake.headI.x + (applyPending s).dir.x) s.cols &&
        seg.y == wrap (s.snake.headI.y + (applyPending s).dir.y) s.rows) = false) :
    (0 ≤ wrap (s.snake.headI.x + (applyPending s).dir.x) s.cols ∧
      wrap (s.snake.headI.x + (applyPending s).dir.x) s.cols < s.cols ∧
      0 ≤ wrap (s.snake.headI.y + (applyPending s).dir.y) s.rows ∧
      wrap (s.snake.headI.y + (applyPending s).dir.y) s.rows < s.rows) ∧
    (step u s).snake.headI =
      ⟨wrap (s.snake.headI.x + (applyPending s).dir.x) s.cols,
       wrap (s.snake.headI.y + (applyPending s).dir.y) s.rows⟩ ∧
    (step u s).gameOver = false := by
  refine ⟨⟨wrap_nonneg _ _ hcols, wrap_lt _ _ hcols, wrap_nonneg _ _ hrows, wrap_lt _ _ hrows⟩, ?_⟩
  unfold step
  rw [hgo]
  simp only [Bool.false_eq_true, if_false]
  rw [applyPending_snake, applyPending_cols, applyPending_rows] at *
  rw [hfree]
  simp only [Bool.false_eq_true, if_false]
  constructor
  · cases hfc : (applyPending s).food with
    | none =>
      simp only [hfc]
      rw [List.dropLast_cons_of_ne_nil hne]
      rfl
    | some f =>
      simp only [hfc]
      split
      · rfl
      · rw [List.dropLast_cons_of_ne_nil hne]
        rfl
  · cases hfc : (applyPending s).food with
    | none =>
      simp only [hfc]
      rw [applyPending_gameOver]
      exact hgo
    | some f =>
      simp only [hfc]
      split <;> rw [applyPending_gameOver] <;> exact hgo

theorem snake_wrap_amended_witness :
    (0 ≤ wrap (wrapFreeState.snake.headI.x + (applyPending wrapFreeState).dir.x) wrapFreeState.cols ∧
      wrap (wrapFreeState.snake.headI.x + (applyPending wrapFreeState).dir.x) wrapFreeState.cols <
        wrapFreeState.cols ∧
      0 ≤ wrap (wrapFreeState.snake.headI.y + (applyPending wrapFreeState).dir.y) wrapFreeState.rows ∧
      wrap (wrapFreeState.snake.headI.y + (applyPending wrapFreeState).dir.y) wrapFreeState.rows <
        wrapFreeState.rows) ∧
    (step (fun _ => ⟨0, 0⟩) wrapFreeState).snake.headI =
      ⟨wrap (wrapFreeState.snake.headI.x + (applyPending wrapFreeState).dir.x) wrapFreeState.cols,
       wrap (wrapFreeState.snake.headI.y + (applyPending wrapFreeState).dir.y) wrapFreeState.rows⟩ ∧
    (step (fun _ => ⟨0, 0⟩) wrapFreeState).gameOver = false :=
  snake_wrap_amended wrapFreeState (fun _ => ⟨0, 0⟩) (by decide) (by decide) (by decide)
    (by decide) (by decide)

/-- C5.  When the wrapped next head cell equals some pre-move body segment
other than the head, `step` only sets `gameOver`: the snake list, the score,
the food cell and even the tick counter are exactly those of the pre-step
state. -/
theorem snake_self_collision (s : State) (u : Nat → Pos)
    (hgo : s.gameOver = false)
    (hhit : (applyPending s).snake.tail.any (fun seg =>
        seg.x == wrap (s.snake.headI.x + (applyPending s).dir.x) s.cols &&
        seg.y == wrap (s.snake.headI.y + (applyPending s).dir.y) s.rows) = true) :
    (step u s).gameOver = true ∧
    (step u s).snake = s.snake ∧
    (step u s).snake.length = s.snake.length ∧
    (step u s).score = s.score ∧
    (step u s).food = s.food ∧
    (step u s).ticks = s.ticks := by
  unfold step
  rw [hgo]
  simp only [Bool.false_eq_true, if_false]
  rw [applyPending_snake] at hhit
  rw [applyPending_snake, applyPending_cols, applyPending_rows, hhit, if_pos rfl]
  exact ⟨rfl, rfl, rfl, applyPending_score s, applyPending_food s, applyPending_ticks s⟩

theorem snake_self_collision_witness :
    (step (fun _ => ⟨0, 0⟩) selfHitState).gameOver = true ∧
    (step (fun _ => ⟨0, 0⟩) selfHitState).snake = selfHitState.snake ∧
    (step (fun _ => ⟨0, 0⟩) selfHitState).snake.length = selfHitState.snake.length ∧
    (step (fun _ => ⟨0, 0⟩) selfHitState).score = selfHitState.score ∧
    (step (fun _ => ⟨0, 0⟩) selfHitState).food = selfHitState.food ∧
    (step (fun _ => ⟨0, 0⟩) selfHitState).ticks = selfHitState.ticks :=
  snake_self_collision selfHitState (fun _ => ⟨0, 0⟩) (by decide) (by decide)

/-- If some draw among the first `fuel` candidates does not overlap the
snake, the accepted food cell does not overlap the snake. -/
theorem placeFoodAux_no_overlap (snake : List Pos) (u : Nat → Pos) :
    ∀ (fuel k0 : Nat), (∃ j, j < fuel ∧ overlapsSnake snake (u (k0 + j)) = false) →
      overlapsSnake snake (placeFoodAux snake u fuel k0) = false := by
  intro fuel
  induction fuel with
  | zero => intro k0 h; exact absurd h.choose_spec.1 (Nat.not_lt_zero _)
  | succ n ih =>
    intro k0 h
    unfold placeFoodAux
    cases hov : overlapsSnake snake (u k0) with
    | false => simpa using hov
    | true =>
      simp only [if_true]
      apply ih
      obtain ⟨j, hj, hval⟩ := h
      match j, hj, hval with
      | 0, _, hval => rw [Nat.add_zero] at hval; exact absurd hval (by rw [hov]; decide)
      | j' + 1, hj, hval =>
        exact ⟨j', by omega, by rw [show k0 + 1 + j' = k0 + (j' + 1) by omega]; exact hval⟩

/-- C6, counterexample.  The claim asserts that the food cell resampled after
growth never overlaps the post-growth snake.  On the full `1 × 1` board the
head wraps onto the food, the snake grows, and after 2000 failed retries
`placeFood` accepts the overlapping draw: the new food `(0,0)` lies on the
snake, refuting the claim as stated. -/
theorem snake_growth_counterexample :
    (step (fun _ => ⟨0, 0⟩) fullBoardState).snake.length = fullBoardState.snake.length + 1 ∧
    (step (fun _ => ⟨0, 0⟩) fullBoardState).score = fullBoardState.score + 1 ∧
    (step (fun _ => ⟨0, 0⟩) fullBoardState).food = some ⟨0, 0⟩ ∧
    overlapsSnake (step (fun _ => ⟨0, 0⟩) fullBoardState).snake ⟨0, 0⟩ = true := by
  decide

/-- C6, amended.  When the wrapped next head cell equals the food cell and is
not a self-collision, `step` grows the snake by exactly one segment and
increments the score by exactly 1; and provided at least one of the first
2000 random draws lands off the grown snake (the bounded retry loop does not
exhaust), the resampled food cell does not overlap the grown snake. -/
theorem snake_growth_amended (s : State) (u : Nat → Pos)
    (hgo : s.gameOver = false) (_hne : s.snake ≠ [])
    (hfood : s.food = some ⟨wrap (s.snake.headI.x + (applyPending s).dir.x) s.cols,
                            wrap (s.snake.headI.y + (applyPending s).dir.y) s.rows⟩)
    (hmiss : (applyPending s).snake.tail.any (fun seg =>
        seg.x == wrap (s.snake.headI.x + (applyPending s).dir.x) s.cols &&
        seg.y == wrap (s.snake.headI.y + (applyPending s).dir.y) s.rows) = false)
    (hdraw : ∃ j, j < 2000 ∧ overlapsSnake
        (⟨wrap (s.snake.headI.x + (applyPending s).dir.x) s.cols,
          wrap (s.snake.headI.y + (applyPending s).dir.y) s.rows⟩ :: s.snake) (u j) = false) :
    (step u s).snake.length = s.snake.length + 1 ∧
    (step u s).score = s.score + 1 ∧
    ∃ f, (step u s).food = some f ∧ overlapsSnake (step u s).snake f = false := by
  unfold step
  rw [hgo]
  simp only [Bool.false_eq_true, if_false]
  rw [applyPending_snake] at hmiss
  rw [applyPending_snake, applyPending_cols, applyPending_rows, hmiss]
  simp only [Bool.false_eq_true, if_false]
  rw [applyPending_food, hfood]
  dsimp only
  rw [if_pos (And.intro rfl rfl)]
  refine ⟨rfl, by rw [applyPending_score], ?_⟩
  refine ⟨_, rfl, ?_⟩
  exact placeFoodAux_no_overlap _ u 2000 0 (by simpa using hdraw)

theorem snake_growth_amended_witness :
    (step (fun _ => ⟨2, 0⟩) growthState).snake.length = growthState.snake.length + 1 ∧
    (step (fun _ => ⟨2, 0⟩) growthState).score = growthState.score + 1 ∧
    ∃ f, (step (fun _ => ⟨2, 0⟩) growthState).food = some f ∧
      overlapsSnake (step (fun _ => ⟨2, 0⟩) growthState).snake f = false :=
  snake_growth_amended growthState (fun _ => ⟨2, 0⟩) (by decide) (by decide) (by decide)
    (by decide) ⟨0, by decide, by decide⟩

end Snake

namespace Bubble

/-- Grid of the bubble shooter: `ROWS` rows of `COLS` cells, each `null` or a
colour tag (the `{color}` record is represented by its colour string). -/
abbrev Grid := List (List (Option String))

/-- The colour palette `COLORS` of the component. -/
def oceanBlue : String := "#2563EB"

def amber : String := "#F59E0B"

def teal : String := "#10B981"

def red : String := "#EF4444"

def violet : String := "#8B5CF6"

def pink : String := "#F472B6"

/-- `grid[r][c]`: `none` for an empty cell and also for an out-of-range read
(JavaScript `undefined`), both falsy in the source. -/
def getCell (g : Grid) (r c : Nat) : Option String :=
  ((g.get? r).bind fun row => row.get? c).join

/-- `grid[r][c] = v`. -/
def setCell (g : Grid) (r c : Nat) (v : Option String) : Grid :=
  match g.get? r with
  | none => g
  | some row => g.set r (row.set c v)

/-- The grid has exactly `rows` rows of `cols` cells each. -/
def wfGrid (rows cols : Nat) (g : Grid) : Bool :=
  g.length == rows && g.all fun row => row.length == cols

/-- `neighbors(r, c)`: the in-range 4-neighbourhood, in the push order of the
source (`[dc,dr]` destructuring of `[[0,-1],[1,0],[0,1],[-1,0]]`). -/
def nbrs (rows cols : Nat) (r c : Nat) : List (Nat × Nat) :=
  let cand : List (Int × Int) :=
    [((r : Int) - 1, (c : Int)), ((r : Int), (c : Int) + 1),
     ((r : Int) + 1, (c : Int)), ((r : Int), (c : Int) - 1)]
  (cand.filter fun p => 0 ≤ p.1 && p.1 < (rows : Int) && 0 ≤ p.2 && p.2 < (cols : Int)).map
    fun p => (p.1.toNat, p.2.toNat)

/-- `grid[r][c]` holds colour `target`. -/
def colored (g : Grid) (target : String) (p : Nat × Nat) : Bool :=
  getCell g p.1 p.2 == some target

/-- `grid[r][c]` is occupied (by any colour). -/
def occupied (g : Grid) (p : Nat × Nat) : Bool :=
  (getCell g p.1 p.2).isSome

/-- The BFS collection loop of `popClusters`: pop the queue head, skip it if
seen, mark it seen, and when it carries the target colour append it to the
group and enqueue its same-coloured neighbours.  `fuel` bounds the number of
loop iterations; `popClusters` passes enough fuel for the loop to drain the
queue. -/
def bfsGroup (rows cols : Nat) (g : Grid) (target : String) :
    Nat → List (Nat × Nat) → Finset (Nat × Nat) → List (Nat × Nat) → List (Nat × Nat)
  | 0, _, _, group => group
  | _ + 1, [], _, group => group
  | fuel + 1, p :: q, seen, group =>
    if p ∈ seen then bfsGroup rows cols g target fuel q seen group
    else
      if colored g target p then
        bfsGroup rows cols g target fuel
          (q ++ (nbrs rows cols p.1 p.2).filter fun n => colored g target n)
          (insert p seen) (group ++ [p])
      else bfsGroup rows cols g target fuel q (insert p seen) group

/-- Null out every cell of the list. -/
def clearCells (g : Grid) (cells : List (Nat × Nat)) : Grid :=
  cells.foldl (fun acc p => setCell acc p.1 p.2 none) g

/-- `popClusters(startR, startC)`: BFS-collect the same-colour group of the
start cell; clear it and return its size when it has at least 3 cells,
otherwise leave the grid unchanged and return 0. -/
def popClusters (rows cols : Nat) (g : Grid) (startR startC : Nat) : Grid × Nat :=
  match getCell g startR startC with
  | none => (g, 0)
  | some target =>
    let group := bfsGroup rows cols g target (5 * (rows * cols) + 2) [(startR, startC)] ∅ []
    if 3 ≤ group.length then (clearCells g group, group.length) else (g, 0)

/-- The score update `if (popped > 0) setScore(s + popped * 10)` performed by
`attachShotToGrid` after `popClusters`. -/
def scoreAfterPop (score popped : Nat) : Nat :=
  if 0 < popped then score + popped * 10 else score

/-- One colour-respecting adjacency step of the cluster flood fill: `q` is an
in-range 4-neighbour of `p` and holds the target colour. -/
def adjStep (rows cols : Nat) (g : Grid) (target : String) (p q : Nat × Nat) : Prop :=
  q ∈ nbrs rows cols p.1 p.2 ∧ colored g target q = true

/-- Connectivity along same-coloured cells, the specification of the maximal
same-colour connected set containing the start cell. -/
def ReachC (rows cols : Nat) (g : Grid) (target : String) (s p : Nat × Nat) : Prop :=
  Relation.ReflTransGen (adjStep rows cols g target) s p

/-- All in-range cells. -/
def validCells (rows cols : Nat) : Finset (Nat × Nat) :=
  Finset.range rows ×ˢ Finset.range cols

/-- Termination measure of the BFS loop: queue length plus five per
never-seen in-range cell; it strictly decreases at every iteration. -/
def bfsMeasure (rows cols : Nat) (q : List (Nat × Nat)) (seen : Finset (Nat × Nat)) : Nat :=
  q.length + 5 * ((validCells rows cols) \ seen).card

/-- The BFS loop of `dropFloatingBubbles`: pop a cell, skip it if already
marked, otherwise mark it and enqueue its occupied neighbours. -/
def reachAux (rows cols : Nat) (g : Grid) :
    Nat → List (Nat × Nat) → Finset (Nat × Nat) → Finset (Nat × Nat)
  | 0, _, connected => connected
  | _ + 1, [], connected => connected
  | fuel + 1, p :: q, connected =>
    if p ∈ connected then reachAux rows cols g fuel q connected
    else
      reachAux rows cols g fuel
        (q ++ (nbrs rows cols p.1 p.2).filter fun n => occupied g n)
        (insert p connected)

/-- The seed queue of `dropFloatingBubbles`: every occupied cell of row 0. -/
def rowZeroStarts (cols : Nat) (g : Grid) : List (Nat × Nat) :=
  ((List.range cols).map fun c => ((0 : Nat), c)).filter fun p => occupied g p

/-- The `connected` set computed by `dropFloatingBubbles`: all cells reachable
from the occupied cells of row 0 across occupied-cell adjacency. -/
def connectedSet (rows cols : Nat) (g : Grid) : Finset (Nat × Nat) :=
  reachAux rows cols g (6 * (rows * cols) + 2) (rowZeroStarts cols g) ∅

/-- All cells in the row-major scan order of the source's double loops. -/
def allCellsList (rows cols : Nat) : List (Nat × Nat) :=
  (List.range rows).flatMap fun r => (List.range cols).map fun c => (r, c)

/-- The cells cleared by `dropFloatingBubbles`: occupied but not marked. -/
def dropList (rows cols : Nat) (g : Grid) (connected : Finset (Nat × Nat)) :
    List (Nat × Nat) :=
  (allCellsList rows cols).filter fun p => occupied g p && !(decide (p ∈ connected))

/-- `dropFloatingBubbles()`: mark everything reachable from the occupied row-0
cells, clear each occupied unmarked cell, and report the number of cleared
cells (each adds 5 to the score in the source). -/
def dropFloatingBubbles (rows cols : Nat) (g : Grid) : Grid × Nat :=
  let dropped := dropList rows cols g (connectedSet rows cols g)
  (clearCells g dropped, dropped.length)

/-- One occupied-adjacency step of the floating-cleanup flood fill. -/
def occStep (rows cols : Nat) (g : Grid) (p q : Nat × Nat) : Prop :=
  q ∈ nbrs rows cols p.1 p.2 ∧ occupied g q = true

/-- A cell is grounded: reachable from some occupied row-0 cell via
occupied-cell adjacency. -/
def Grounded (rows cols : Nat) (g : Grid) (p : Nat × Nat) : Prop :=
  ∃ s ∈ rowZeroStarts cols g, Relation.ReflTransGen (occStep rows cols g) s p

/-- Witness grid for C2: an L-shaped red triple with one empty cell. -/
def clusterGrid : Grid := [[some red, some red], [some red, none]]

/-- Witness grid for C8: a grounded red cell at `(0,0)` and a floating teal
cell at `(2,1)`. -/
def floatGrid : Grid := [[some red, none], [none, none], [none, some teal]]

/-- A projectile at the moment of contact: position and colour.  Coordinates
live in a linear ordered field with floor (for example ℚ or ℝ), idealising
the JavaScript floats.  `CELL_RADIUS = 16`, `CELL_DIAM = 32`,
`CEILING_Y = 80` are inlined as literals below, as in the source. -/
structure Shot (K : Type) where
  x : K
  y : K
  color : String

/-- `worldToCell(wx, wy)`: the `(r, c)` cell of a world position, clamped
into the grid. -/
def worldToCell {K : Type} [LinearOrderedField K] [FloorRing K]
    (rows cols : Nat) (wx wy : K) : Nat × Nat :=
  ((max 0 (min ((rows : Int) - 1) ⌊(wy - 80) / 32⌋)).toNat,
   (max 0 (min ((cols : Int) - 1) ⌊wx / 32⌋)).toNat)

/-- `cellToWorld(c, r)`: the centre of a cell. -/
def cellToWorld {K : Type} [LinearOrderedField K] (c r : Nat) : K × K :=
  ((c : K) * 32 + 16, 80 + (r : K) * 32 + 16)

/-- `neighborEmptyCellNear(c, r, wx, wy)`: among the six candidate neighbour
offsets, the in-range empty cell whose centre is closest to `(wx, wy)`; the
centre `(c, r)` itself is returned when no candidate qualifies (the
`d2: Infinity` initial best of the source, modelled with an `Option` best).
The result is a `(c, r)` pair, as in the source. -/
def neighborEmptyCellNear {K : Type} [LinearOrderedField K]
    (rows cols : Nat) (g : Grid) (c r : Nat) (wx wy : K) : Nat × Nat :=
  let dirs : List (Int × Int) :=
    [(0, -1), (1, 0), (0, 1), (-1, 0), (1, -1), (-1, 1)]
  let best := dirs.foldl
    (fun (best : Option ((Nat × Nat) × K)) d =>
      let nc := (c : Int) + d.1
      let nr := (r : Int) + d.2
      if nc < 0 ∨ nr < 0 ∨ (cols : Int) ≤ nc ∨ (rows : Int) ≤ nr then best
      else if occupied g (nr.toNat, nc.toNat) then best
      else
        let w := cellToWorld (K := K) nc.toNat nr.toNat
        let d2 := (w.1 - wx) * (w.1 - wx) + (w.2 - wy) * (w.2 - wy)
        match best with
        | none => some ((nc.toNat, nr.toNat), d2)
        | some b => if d2 < b.2 then some ((nc.toNat, nr.toNat), d2) else some b)
    none
  match best with
  | none => (c, r)
  | some b => (b.1.1, b.1.2)

/-- The integers from `a` to `b` inclusive, in order. -/
def intRange (a b : Int) : List Int :=
  (List.range (b - a + 1).toNat).map fun i => a + (i : Int)

/-- The `(r, c)` scan order of `spiralFindEmpty`: radius `d = 1, 2`, row
offset `dr = -d..d`, column offset `dc = -d..d`. -/
def spiralCandidates (r0 c0 : Nat) : List (Int × Int) :=
  (List.range 2).flatMap fun di =>
    let d : Int := (di : Int) + 1
    (intRange (-d) d).flatMap fun dr =>
      (intRange (-d) d).map fun dc => ((r0 : Int) + dr, (c0 : Int) + dc)

/-- `spiralFindEmpty(r0, c0)`: the first in-range empty cell in the expanding
scan order, or `none` when the whole radius-2 square is occupied. -/
def spiralFindEmpty (rows cols : Nat) (r0 c0 : Nat) (g : Grid) : Option (Nat × Nat) :=
  ((spiralCandidates r0 c0).find? fun p =>
      0 ≤ p.1 && 0 ≤ p.2 && p.1 < (rows : Int) && p.2 < (cols : Int) &&
      !(occupied g (p.1.toNat, p.2.toNat))).map fun p => (p.1.toNat, p.2.toNat)

/-- The tail of `attachShotToGrid` after cell resolution: run `popClusters`
seeded at `(rr, cc)`, award `popped * 10` when positive, then run
`dropFloatingBubbles`, awarding 5 per dropped cell.  Returns the final grid
and the total score gain. -/
def finishAttach (rows cols : Nat) (g : Grid) (rr cc : Nat) : Grid × Nat :=
  let pc := popClusters rows cols g rr cc
  let dp := dropFloatingBubbles rows cols pc.1
  (dp.1, (if 0 < pc.2 then pc.2 * 10 else 0) + dp.2 * 5)

/-- Cell resolution of `attachShotToGrid`: around an existing bubble, the
nearest empty neighbour; otherwise the (clamped) cell under the projectile,
falling back to the nearest empty neighbour when it is occupied.  The result
is a `(cc, rr)` pair, mirroring the source variables. -/
def attachTargetCell {K : Type} [LinearOrderedField K] [FloorRing K]
    (rows cols : Nat) (g : Grid) (shot : Shot K) (around : Option (Nat × Nat)) :
    Nat × Nat :=
  match around with
  | some a => neighborEmptyCellNear rows cols g a.1 a.2 shot.x shot.y
  | none =>
    let cell := worldToCell (K := K) rows cols shot.x shot.y
    let cc := min (cols - 1) cell.2
    let rr := min (rows - 1) cell.1
    if occupied g (rr, cc) then neighborEmptyCellNear rows cols g cc rr shot.x shot.y
    else (cc, rr)

/-- `attachShotToGrid(shot, aroundC?, aroundR?)`: write the projectile colour
into the resolved cell when it is empty, otherwise into the cell found by
`spiralFindEmpty`; when even that fails, write nothing.  In every case the
cluster-pop and floating-cleanup passes then run, seeded at the resolved (or
written) cell. -/
def attachShotToGrid {K : Type} [LinearOrderedField K] [FloorRing K]
    (rows cols : Nat) (g : Grid) (shot : Shot K) (around : Option (Nat × Nat)) :
    Grid × Nat :=
  let cr := attachTargetCell rows cols g shot around
  if occupied g (cr.2, cr.1) then
    match spiralFindEmpty rows cols cr.2 cr.1 g with
    | some f => finishAttach rows cols (setCell g f.1 f.2 (some shot.color)) f.1 f.2
    | none => finishAttach rows cols g cr.2 cr.1
  else
    finishAttach rows cols (setCell g cr.2 cr.1 (some shot.color)) cr.2 cr.1

/-- Counterexample grid for C3: a full `1 x 3` row of three red cells. -/
def rowGrid : Grid := [[some red, some red, some red]]

/-- A projectile over cell `(0, 1)` of a `1 x 3` grid. -/
def stuckShot : Shot ℚ := { x := 40, y := 90, color := oceanBlue }

/-- Witness grid for the amended C3: a full `1 x 3` row with no same-colour
triple and no floating cell. -/
def mixedRowGrid : Grid := [[some red, some teal, some red]]

/-- Witness grid for C10: a red cell at `(0, 0)` next to an empty cell. -/
def pairGrid : Grid := [[some red, none]]

/-- A projectile over cell `(0, 1)` of a `1 x 2` grid. -/
def attachShot : Shot ℚ := { x := 40, y := 90, color := red }

/-- Any cell of the bottom row is occupied (the abort test of
`shiftRowsDown`). -/
def bottomRowOccupied (rows cols : Nat) (g : Grid) : Bool :=
  (List.range cols).any fun c => occupied g (rows - 1, c)

/-- `shiftRowsDown()`: when the bottom row holds any bubble, set the terminal
flags and leave the grid untouched (returned flag `true`); otherwise move
every row down by one and seed row 0 from the random stream `newRow`
(`newRow c` models the per-column `Math.random() < 0.8` draw).  On a
rectangular grid the row-by-row copy of the source equals prepending the new
row and dropping the last. -/
def shiftRowsDown (rows cols : Nat) (newRow : Nat → Option String) (g : Grid) :
    Grid × Bool :=
  if bottomRowOccupied rows cols g then (g, true)
  else (((List.range cols).map newRow) :: g.dropLast, false)

/-- An in-flight projectile of the shooter (`{x, y, vx, vy, color}`). -/
structure ShotR where
  x : ℝ
  y : ℝ
  vx : ℝ
  vy : ℝ
  color : String

/-- The shooter: position, aim angle, and the in-flight projectile. -/
structure Shooter where
  x : ℝ
  y : ℝ
  angle : ℝ
  shot : Option ShotR

/-- The component state touched by the game loop `update(dt)`: the grid, the
score, the `running`/`gameOver` flags, the row-shift timer, the shooter, the
loaded and queued colours, the pending-shot flag, the mouse position, and a
cursor into the random streams. -/
structure BState where
  grid : Grid
  score : Nat
  running : Bool
  gameOver : Bool
  timer : ℝ
  shooter : Shooter
  current : String
  next : String
  pendingShot : Bool
  mouseX : ℝ
  mouseY : ℝ
  rngIdx : Nat

/-- The ambient random sources of the component: the colour draws of
`randomBubble()` and the per-column draws of the row seeding. -/
structure BubbleRng where
  colorSeq : Nat → String
  seedSeq : Nat → Option String

/-- `Math.atan2(y, x)`, the argument of the complex number `x + y·i`. -/
noncomputable def atan2 (y x : ℝ) : ℝ := Complex.arg ⟨x, y⟩

/-- The row-shift phase at the start of `update(dt)`: accumulate the timer;
once it reaches the 6000 ms interval, reset it and run `shiftRowsDown`,
either entering the terminal state (grid untouched) or installing the
shifted grid. -/
noncomputable def shiftPhase (rows cols : Nat) (rng : BubbleRng) (dt : ℝ)
    (s : BState) : BState :=
  let t := s.timer + dt
  if t ≥ 6000 then
    let res := shiftRowsDown rows cols (fun c => rng.seedSeq (s.rngIdx + c)) s.grid
    if res.2 then { s with timer := 0, running := false, gameOver := true }
    else { s with timer := 0, grid := res.1, rngIdx := s.rngIdx + cols }
  else { s with timer := t }

/-- `updateShooter()`: aim at the mouse, clamp the angle to the forward arc
`[-5π/6, -π/6]`, and launch the pending shot when none is in flight and the
game is running; `running`/`gameOver` are the component state captured at
the entry of `update`. -/
noncomputable def updateShooter (running gameOver : Bool) (s : BState) : BState :=
  let a0 := atan2 (s.mouseY - s.shooter.y) (s.mouseX - s.shooter.x)
  let maxA := -1 * Real.pi / 6
  let minA := -5 * Real.pi / 6
  let a1 := if a0 > maxA then maxA else a0
  let a2 := if a1 < minA then minA else a1
  let sh := { s.shooter with angle := a2 }
  if s.pendingShot && s.shooter.shot.isNone && running && !gameOver then
    let launched : ShotR :=
      { x := sh.x, y := sh.y, vx := Real.cos a2 * 8, vy := Real.sin a2 * 8,
        color := s.current }
    { s with shooter := { sh with shot := some launched }, pendingShot := false }
  else { s with shooter := sh }

/-- `updateShot()`: move the projectile, bounce it off the side walls, attach
it on ceiling contact or on squared-distance contact with the first occupied
cell in row-major order (contact radius `CELL_DIAM - 2 = 62`), and let it
vanish past the bottom bound. -/
noncomputable def updateShot (width height : ℝ) (rows cols : Nat) (rng : BubbleRng)
    (s : BState) : BState :=
  match s.shooter.shot with
  | none => s
  | some shot0 =>
    let x1 := shot0.x + shot0.vx
    let y1 := shot0.y + shot0.vy
    let hitWall := x1 ≤ 16 ∨ width - 16 ≤ x1
    let vx1 := if hitWall then -shot0.vx else shot0.vx
    let x2 := if hitWall then max 16 (min (width - 16) x1) else x1
    if y1 ≤ 80 + 16 then
      let res := attachShotToGrid rows cols s.grid
        { x := x2, y := y1, color := shot0.color } none
      { s with
        grid := res.1,
        score := s.score + res.2,
        shooter := { s.shooter with shot := none },
        current := s.next,
        next := rng.colorSeq s.rngIdx,
        rngIdx := s.rngIdx + 1 }
    else
      match (allCellsList rows cols).find? (fun p =>
          occupied s.grid p &&
          decide ((x2 - (cellToWorld (K := ℝ) p.2 p.1).1) *
              (x2 - (cellToWorld (K := ℝ) p.2 p.1).1) +
            (y1 - (cellToWorld (K := ℝ) p.2 p.1).2) *
              (y1 - (cellToWorld (K := ℝ) p.2 p.1).2) ≤ 62 * 62)) with
      | some p =>
        let res := attachShotToGrid rows cols s.grid
          { x := x2, y := y1, color := shot0.color } (some (p.2, p.1))
        { s with
          grid := res.1,
          score := s.score + res.2,
          shooter := { s.shooter with shot := none },
          current := s.next,
          next := rng.colorSeq s.rngIdx,
          rngIdx := s.rngIdx + 1 }
      | none =>
        if y1 ≥ height - 4 then
          { s with shooter := { s.shooter with shot := none } }
        else
          let moved : ShotR := { shot0 with x := x2, y := y1, vx := vx1 }
          { s with shooter := { s.shooter with shot := some moved } }

/-- `update(dt)`: a no-op when paused or terminal; otherwise the row-shift
phase, then the shooter phase, then the projectile phase (the latter two get
the `running`/`gameOver` values captured at entry, as the source closures
do). -/
noncomputable def update (width height : ℝ) (rows cols : Nat) (rng : BubbleRng)
    (dt : ℝ) (s : BState) : BState :=
  if !s.running || s.gameOver then s
  else
    updateShot width height rows cols rng
      (updateShooter s.running s.gameOver (shiftPhase rows cols rng dt s))

/-- A fixed random source for the C9 witness. -/
def constRng : BubbleRng := ⟨fun _ => red, fun _ => none⟩

/-- Witness state for C9: a `1 × 1` grid whose single (bottom) row is
occupied, with the shift timer about to fire. -/
noncomputable def brinkState : BState :=
  { grid := [[some red]]
    score := 0
    running := true
    gameOver := false
    timer := 0
    shooter := { x := 240, y := 600, angle := 0, shot := none }
    current := red
    next := teal
    pendingShot := false
    mouseX := 0
    mouseY := 0
    rngIdx := 0 }

theorem getCell_eq_some_iff {g : Grid} {r c : Nat} {v : String} :
    getCell g r c = some v ↔ ∃ row, g.get? r = some row ∧ row.get? c = some (some v) := by
  unfold getCell
  rw [Option.join_eq_some, Option.bind_eq_some]

theorem mem_validCells {rows cols : Nat} {p : Nat × Nat} :
    p ∈ validCells rows cols ↔ p.1 < rows ∧ p.2 < cols := by
  unfold validCells
  rw [Finset.mem_product, Finset.mem_range, Finset.mem_range]

theorem colored_lt {rows cols : Nat} {g : Grid} {target : String} {p : Nat × Nat}
    (hWF : wfGrid rows cols g = true) (hc : colored g target p = true) :
    p.1 < rows ∧ p.2 < cols := by
  unfold colored at hc
  rw [beq_iff_eq] at hc
  obtain ⟨row, hrow, hcell⟩ := getCell_eq_some_iff.mp hc
  unfold wfGrid at hWF
  rw [Bool.and_eq_true, beq_iff_eq, List.all_eq_true] at hWF
  have h1 : p.1 < g.length := by
    rw [List.get?_eq_getElem?] at hrow
    exact (List.getElem?_eq_some_iff.mp hrow).1
  have h2 : p.2 < row.length := by
    rw [List.get?_eq_getElem?] at hcell
    exact (List.getElem?_eq_some_iff.mp hcell).1
  have h3 : row ∈ g := by
    rw [List.get?_eq_getElem?] at hrow
    exact List.getElem?_mem hrow
  have h4 := hWF.2 row h3
  rw [beq_iff_eq] at h4
  exact ⟨hWF.1 ▸ h1, by omega⟩

theorem mem_nbrs_lt {rows cols r c : Nat} {p : Nat × Nat}
    (hp : p ∈ nbrs rows cols r c) : p.1 < rows ∧ p.2 < cols := by
  unfold nbrs at hp
  rw [List.mem_map] at hp
  obtain ⟨q, hq, rfl⟩ := hp
  rw [List.mem_filter] at hq
  have hb := hq.2
  simp only [Bool.and_eq_true, decide_eq_true_eq] at hb
  constructor
  · have := hb.1.1.2
    omega
  · have := hb.2
    omega

theorem nbrs_length_le (rows cols r c : Nat) : (nbrs rows cols r c).length ≤ 4 := by
  unfold nbrs
  rw [List.length_map]
  exact le_trans (List.length_filter_le _ _) (by norm_num)

theorem getCell_setCell_ne {g : Grid} {r c : Nat} {v : Option String} {r' c' : Nat}
    (h : (r', c') ≠ (r, c)) :
    getCell (setCell g r c v) r' c' = getCell g r' c' := by
  unfold setCell
  cases hrow : g.get? r with
  | none => rfl
  | some row =>
    unfold getCell
    by_cases hr : r' = r
    · subst hr
      have hc : c' ≠ c := fun hc => h (by rw [hc])
      have hlt : r' < g.length := by
        rw [List.get?_eq_getElem?] at hrow
        exact (List.getElem?_eq_some_iff.mp hrow).1
      rw [List.get?_set_eq_of_lt _ hlt, hrow]
      simp only [Option.some_bind]
      rw [List.get?_set_ne _ _ (fun hx => hc hx.symm)]
    · rw [List.get?_set_ne _ _ (fun hx => hr hx.symm)]

theorem getCell_setCell_none (g : Grid) (r c : Nat) :
    getCell (setCell g r c none) r c = none := by
  unfold setCell
  cases hrow : g.get? r with
  | none =>
    unfold getCell
    rw [hrow]
    rfl
  | some row =>
    unfold getCell
    have hlt : r < g.length := by
      rw [List.get?_eq_getElem?] at hrow
      exact (List.getElem?_eq_some_iff.mp hrow).1
    rw [List.get?_set_eq_of_lt _ hlt]
    simp only [Option.some_bind]
    by_cases hc : c < row.length
    · rw [List.get?_set_eq_of_lt _ hc]
      rfl
    · rw [List.get?_eq_none.mpr (by rw [List.length_set]; omega)]
      rfl

theorem getCell_clearCells_not_mem {cells : List (Nat × Nat)} :
    ∀ {g : Grid} {p : Nat × Nat}, p ∉ cells →
      getCell (clearCells g cells) p.1 p.2 = getCell g p.1 p.2 := by
  induction cells with
  | nil => intro g p _; rfl
  | cons a t ih =>
    intro g p hp
    have hpa : p ≠ a := fun h => hp (h ▸ List.mem_cons_self a t)
    have hpt : p ∉ t := fun h => hp (List.mem_cons_of_mem a h)
    show getCell (clearCells (setCell g a.1 a.2 none) t) p.1 p.2 = getCell g p.1 p.2
    rw [ih hpt]
    exact getCell_setCell_ne (by
      intro h
      exact hpa (Prod.ext (congrArg Prod.fst h) (congrArg Prod.snd h)))

theorem getCell_clearCells_mem {cells : List (Nat × Nat)} :
    ∀ {g : Grid} {p : Nat × Nat}, p ∈ cells →
      getCell (clearCells g cells) p.1 p.2 = none := by
  induction cells with
  | nil => intro g p hp; exact absurd hp (List.not_mem_nil p)
  | cons a t ih =>
    intro g p hp
    show getCell (clearCells (setCell g a.1 a.2 none) t) p.1 p.2 = none
    by_cases hpt : p ∈ t
    · exact ih hpt
    · have hpa : p = a := by
        rcases List.mem_cons.mp hp with h | h
        · exact h
        · exact absurd h hpt
      subst hpa
      rw [getCell_clearCells_not_mem hpt]
      exact getCell_setCell_none g p.1 p.2

/-- Loop invariants of the BFS of `popClusters`.  Given enough fuel and a
consistent intermediate state, the returned group is sound (coloured and
reachable from the seed), duplicate-free, extends the accumulated group, is
closed under same-colour adjacency, and absorbs every coloured queue entry. -/
theorem bfsGroup_spec (rows cols : Nat) (g : Grid) (target : String)
    (hWF : wfGrid rows cols g = true) (s0 : Nat × Nat) :
    ∀ (fuel : Nat) (q : List (Nat × Nat)) (seen : Finset (Nat × Nat)) (group : List (Nat × Nat)),
      bfsMeasure rows cols q seen < fuel →
      (∀ p ∈ group, colored g target p = true ∧ ReachC rows cols g target s0 p) →
      group.Nodup →
      (∀ p ∈ group, p ∈ seen) →
      (∀ p ∈ seen, colored g target p = true → p ∈ group) →
      (∀ p ∈ q, colored g target p = true → ReachC rows cols g target s0 p) →
      (∀ y ∈ group, ∀ x ∈ nbrs rows cols y.1 y.2, colored g target x = true →
        x ∈ q ∨ x ∈ group) →
      (∀ p ∈ bfsGroup rows cols g target fuel q seen group,
          colored g target p = true ∧ ReachC rows cols g target s0 p) ∧
      (bfsGroup rows cols g target fuel q seen group).Nodup ∧
      (∀ p ∈ group, p ∈ bfsGroup rows cols g target fuel q seen group) ∧
      (∀ y ∈ bfsGroup rows cols g target fuel q seen group,
        ∀ x ∈ nbrs rows cols y.1 y.2, colored g target x = true →
          x ∈ bfsGroup rows cols g target fuel q seen group) ∧
      (∀ p ∈ q, colored g target p = true →
        p ∈ bfsGroup rows cols g target fuel q seen group) := by
  intro fuel
  induction fuel with
  | zero =>
    intro q seen group hm
    exact absurd hm (Nat.not_lt_zero _)
  | succ n ih =>
    intro q seen group hm hSG hGN hGseen hSeenG hQ hF
    cases q with
    | nil =>
      simp only [bfsGroup]
      refine ⟨hSG, hGN, fun p hp => hp, ?_, ?_⟩
      · intro y hy x hx hcx
        rcases hF y hy x hx hcx with h | h
        · exact absurd h (List.not_mem_nil x)
        · exact h
      · intro p hp
        exact absurd hp (List.not_mem_nil p)
    | cons p q' =>
      simp only [bfsGroup]
      by_cases hp : p ∈ seen
      · rw [if_pos hp]
        have hm' : bfsMeasure rows cols q' seen < n := by
          unfold bfsMeasure at hm ⊢
          rw [List.length_cons] at hm
          omega
        have hQ' : ∀ x ∈ q', colored g target x = true → ReachC rows cols g target s0 x :=
          fun x hx hcx => hQ x (List.mem_cons_of_mem _ hx) hcx
        have hF' : ∀ y ∈ group, ∀ x ∈ nbrs rows cols y.1 y.2, colored g target x = true →
            x ∈ q' ∨ x ∈ group := by
          intro y hy x hx hcx
          rcases hF y hy x hx hcx with h | h
          · rcases List.mem_cons.mp h with h1 | h1
            · exact Or.inr (hSeenG x (h1 ▸ hp) hcx)
            · exact Or.inl h1
          · exact Or.inr h
        obtain ⟨c1, c2, c3, c4, c5⟩ := ih q' seen group hm' hSG hGN hGseen hSeenG hQ' hF'
        refine ⟨c1, c2, c3, c4, ?_⟩
        intro x hx hcx
        rcases List.mem_cons.mp hx with h1 | h1
        · exact c3 x (hSeenG x (h1 ▸ hp) hcx)
        · exact c5 x h1 hcx
      · rw [if_neg hp]
        by_cases hc : colored g target p = true
        · rw [if_pos hc]
          have hpnotg : p ∉ group := fun h => hp (hGseen p h)
          have hpv : p ∈ validCells rows cols := mem_validCells.mpr (colored_lt hWF hc)
          have hpm : p ∈ validCells rows cols \ seen := Finset.mem_sdiff.mpr ⟨hpv, hp⟩
          have hcard : ((validCells rows cols) \ insert p seen).card =
              ((validCells rows cols) \ seen).card - 1 := by
            rw [Finset.sdiff_insert, Finset.card_erase_of_mem hpm]
          have hcpos : 0 < ((validCells rows cols) \ seen).card := Finset.card_pos.mpr ⟨p, hpm⟩
          have hns : ((nbrs rows cols p.1 p.2).filter fun x => colored g target x).length ≤ 4 :=
            le_trans (List.length_filter_le _ _) (nbrs_length_le rows cols p.1 p.2)
          have hm' : bfsMeasure rows cols
              (q' ++ (nbrs rows cols p.1 p.2).filter fun x => colored g target x)
              (insert p seen) < n := by
            unfold bfsMeasure at hm ⊢
            rw [List.length_cons] at hm
            rw [List.length_append, hcard]
            omega
          have hreach : ReachC rows cols g target s0 p := hQ p (List.mem_cons_self _ _) hc
          have hSG' : ∀ x ∈ group ++ [p],
              colored g target x = true ∧ ReachC rows cols g target s0 x := by
            intro x hx
            rcases List.mem_append.mp hx with h | h
            · exact hSG x h
            · rw [List.mem_singleton.mp h]
              exact ⟨hc, hreach⟩
          have hGN' : (group ++ [p]).Nodup := by
            refine hGN.append (List.nodup_singleton p) ?_
            intro a ha hb
            rw [List.mem_singleton.mp hb] at ha
            exact hpnotg ha
          have hGseen' : ∀ x ∈ group ++ [p], x ∈ insert p seen := by
            intro x hx
            rcases List.mem_append.mp hx with h | h
            · exact Finset.mem_insert_of_mem (hGseen x h)
            · rw [List.mem_singleton.mp h]
              exact Finset.mem_insert_self p seen
          have hSeenG' : ∀ x ∈ insert p seen, colored g target x = true → x ∈ group ++ [p] := by
            intro x hx hcx
            rcases Finset.mem_insert.mp hx with h | h
            · exact List.mem_append_right _ (List.mem_singleton.mpr h)
            · exact List.mem_append_left _ (hSeenG x h hcx)
          have hQ' : ∀ x ∈ q' ++ (nbrs rows cols p.1 p.2).filter fun y => colored g target y,
              colored g target x = true → ReachC rows cols g target s0 x := by
            intro x hx hcx
            rcases List.mem_append.mp hx with h | h
            · exact hQ x (List.mem_cons_of_mem _ h) hcx
            · obtain ⟨hn, _⟩ := List.mem_filter.mp h
              exact Relation.ReflTransGen.tail hreach ⟨hn, hcx⟩
          have hF' : ∀ y ∈ group ++ [p], ∀ x ∈ nbrs rows cols y.1 y.2,
              colored g target x = true →
              x ∈ q' ++ (nbrs rows cols p.1 p.2).filter (fun z => colored g target z) ∨
              x ∈ group ++ [p] := by
            intro y hy x hx hcx
            rcases List.mem_append.mp hy with h | h
            · rcases hF y h x hx hcx with h1 | h1
              · rcases List.mem_cons.mp h1 with h2 | h2
                · exact Or.inr (List.mem_append_right _ (List.mem_singleton.mpr h2))
                · exact Or.inl (List.mem_append_left _ h2)
              · exact Or.inr (List.mem_append_left _ h1)
            · rw [List.mem_singleton.mp h] at hx
              exact Or.inl (List.mem_append_right _ (List.mem_filter.mpr ⟨hx, hcx⟩))
          obtain ⟨c1, c2, c3, c4, c5⟩ :=
            ih _ _ _ hm' hSG' hGN' hGseen' hSeenG' hQ' hF'
          refine ⟨c1, c2, ?_, c4, ?_⟩
          · intro x hx
            exact c3 x (List.mem_append_left _ hx)
          · intro x hx hcx
            rcases List.mem_cons.mp hx with h1 | h1
            · exact c3 x (List.mem_append_right _ (List.mem_singleton.mpr h1))
            · exact c5 x (List.mem_append_left _ h1) hcx
        · rw [if_neg hc]
          have hsub : (validCells rows cols) \ insert p seen ⊆ (validCells rows cols) \ seen :=
            Finset.sdiff_subset_sdiff (Finset.Subset.refl _) (Finset.subset_insert _ _)
          have hm' : bfsMeasure rows cols q' (insert p seen) < n := by
            unfold bfsMeasure at hm ⊢
            rw [List.length_cons] at hm
            have := Finset.card_le_card hsub
            omega
          have hGseen' : ∀ x ∈ group, x ∈ insert p seen :=
            fun x hx => Finset.mem_insert_of_mem (hGseen x hx)
          have hSeenG' : ∀ x ∈ insert p seen, colored g target x = true → x ∈ group := by
            intro x hx hcx
            rcases Finset.mem_insert.mp hx with h | h
            · exact absurd (h ▸ hcx) hc
            · exact hSeenG x h hcx
          have hQ' : ∀ x ∈ q', colored g target x = true → ReachC rows cols g target s0 x :=
            fun x hx hcx => hQ x (List.mem_cons_of_mem _ hx) hcx
          have hF' : ∀ y ∈ group, ∀ x ∈ nbrs rows cols y.1 y.2, colored g target x = true →
              x ∈ q' ∨ x ∈ group := by
            intro y hy x hx hcx
            rcases hF y hy x hx hcx with h | h
            · rcases List.mem_cons.mp h with h1 | h1
              · exact absurd (h1 ▸ hcx) hc
              · exact Or.inl h1
            · exact Or.inr h
          obtain ⟨c1, c2, c3, c4, c5⟩ := ih q' _ group hm' hSG hGN hGseen' hSeenG' hQ' hF'
          refine ⟨c1, c2, c3, c4, ?_⟩
          intro x hx hcx
          rcases List.mem_cons.mp hx with h1 | h1
          · exact absurd (h1 ▸ hcx) hc
          · exact c5 x h1 hcx

/-- The group collected by the BFS of `popClusters`, run with the fuel that
`popClusters` supplies, is exactly the same-colour connected component of the
start cell, without duplicates. -/
theorem bfsGroup_eq_component (rows cols : Nat) (g : Grid) (target : String)
    (hWF : wfGrid rows cols g = true) (s0 : Nat × Nat)
    (hc0 : colored g target s0 = true) :
    (∀ p, p ∈ bfsGroup rows cols g target (5 * (rows * cols) + 2) [s0] ∅ [] ↔
      ReachC rows cols g target s0 p) ∧
    (bfsGroup rows cols g target (5 * (rows * cols) + 2) [s0] ∅ []).Nodup := by
  have hcard : ((validCells rows cols : Finset (Nat × Nat)) \ ∅).card ≤ rows * cols := by
    rw [Finset.sdiff_empty]
    unfold validCells
    rw [Finset.card_product, Finset.card_range, Finset.card_range]
  have hm : bfsMeasure rows cols [s0] ∅ < 5 * (rows * cols) + 2 := by
    unfold bfsMeasure
    rw [List.length_singleton]
    omega
  obtain ⟨c1, c2, c3, c4, c5⟩ := bfsGroup_spec rows cols g target hWF s0 _ [s0] ∅ [] hm
    (fun p hp => absurd hp (List.not_mem_nil p))
    List.nodup_nil
    (fun p hp => absurd hp (List.not_mem_nil p))
    (fun p hp => absurd hp (Finset.not_mem_empty p))
    (fun p hp _ => by
      rw [List.mem_singleton.mp hp]
      exact Relation.ReflTransGen.refl)
    (fun y hy => absurd hy (List.not_mem_nil y))
  refine ⟨fun p => ⟨fun hp => (c1 p hp).2, fun hr => ?_⟩, c2⟩
  induction hr with
  | refl => exact c5 s0 (List.mem_singleton_self s0) hc0
  | tail hr hstep ih => exact c4 _ ih _ hstep.1 hstep.2

/-- C2.  Once a colour sits in the start cell (the cell a projectile's colour
was just written into), the breadth-first flood fill of `popClusters` collects
exactly the maximal same-colour connected component of that cell; when the
component has at least 3 cells `popClusters` clears every cell of it, leaves
every other cell unchanged, reports the component size, and the score update
strictly increases the score; a component of exactly 2 cells is never
cleared: the grid and the score are unchanged. -/
theorem bubble_cluster_clear (rows cols : Nat) (g : Grid) (startR startC : Nat)
    (target : String) (hWF : wfGrid rows cols g = true)
    (hcell : getCell g startR startC = some target) :
    (∀ p, p ∈ bfsGroup rows cols g target (5 * (rows * cols) + 2) [(startR, startC)] ∅ [] ↔
        ReachC rows cols g target (startR, startC) p) ∧
    (bfsGroup rows cols g target (5 * (rows * cols) + 2) [(startR, startC)] ∅ []).Nodup ∧
    (3 ≤ (bfsGroup rows cols g target (5 * (rows * cols) + 2) [(startR, startC)] ∅ []).length →
      (popClusters rows cols g startR startC).2 =
        (bfsGroup rows cols g target (5 * (rows * cols) + 2) [(startR, startC)] ∅ []).length ∧
      (∀ p, ReachC rows cols g target (startR, startC) p →
        getCell (popClusters rows cols g startR startC).1 p.1 p.2 = none) ∧
      (∀ p, ¬ ReachC rows cols g target (startR, startC) p →
        getCell (popClusters rows cols g startR startC).1 p.1 p.2 = getCell g p.1 p.2) ∧
      (∀ score : Nat, score < scoreAfterPop score (popClusters rows cols g startR startC).2)) ∧
    ((bfsGroup rows cols g target (5 * (rows * cols) + 2) [(startR, startC)] ∅ []).length = 2 →
      (popClusters rows cols g startR startC).1 = g ∧
      (popClusters rows cols g startR startC).2 = 0 ∧
      (∀ score : Nat, scoreAfterPop score (popClusters rows cols g startR startC).2 = score)) := by
  have hc0 : colored g target (startR, startC) = true := by
    unfold colored
    rw [hcell]
    exact beq_self_eq_true _
  obtain ⟨hiff, hnd⟩ := bfsGroup_eq_component rows cols g target hWF (startR, startC) hc0
  have hpop : popClusters rows cols g startR startC =
      (if 3 ≤ (bfsGroup rows cols g target (5 * (rows * cols) + 2)
          [(startR, startC)] ∅ []).length then
        (clearCells g (bfsGroup rows cols g target (5 * (rows * cols) + 2)
          [(startR, startC)] ∅ []),
         (bfsGroup rows cols g target (5 * (rows * cols) + 2) [(startR, startC)] ∅ []).length)
      else (g, 0)) := by
    unfold popClusters
    rw [hcell]
  refine ⟨hiff, hnd, ?_, ?_⟩
  · intro hlen
    rw [hpop, if_pos hlen]
    refine ⟨rfl, ?_, ?_, ?_⟩
    · intro p hr
      exact getCell_clearCells_mem ((hiff p).mpr hr)
    · intro p hr
      exact getCell_clearCells_not_mem (fun hmem => hr ((hiff p).mp hmem))
    · intro score
      unfold scoreAfterPop
      rw [if_pos (by omega)]
      omega
  · intro hlen
    rw [hpop, if_neg (by omega)]
    refine ⟨rfl, rfl, ?_⟩
    intro score
    unfold scoreAfterPop
    rw [if_neg (by omega)]

theorem occupied_lt {rows cols : Nat} {g : Grid} {p : Nat × Nat}
    (hWF : wfGrid rows cols g = true) (ho : occupied g p = true) :
    p.1 < rows ∧ p.2 < cols := by
  unfold occupied at ho
  rw [Option.isSome_iff_exists] at ho
  obtain ⟨v, hv⟩ := ho
  exact @colored_lt rows cols g v p hWF (by unfold colored; rw [hv]; exact beq_self_eq_true _)

theorem mem_rowZeroStarts {cols : Nat} {g : Grid} {p : Nat × Nat} :
    p ∈ rowZeroStarts cols g ↔ p.1 = 0 ∧ p.2 < cols ∧ occupied g p = true := by
  unfold rowZeroStarts
  rw [List.mem_filter, List.mem_map]
  constructor
  · rintro ⟨⟨c, hc, rfl⟩, hocc⟩
    exact ⟨rfl, by rw [List.mem_range] at hc; exact hc, hocc⟩
  · rintro ⟨h1, h2, h3⟩
    exact ⟨⟨p.2, List.mem_range.mpr h2, by rw [← h1]⟩, h3⟩

theorem rowZeroStarts_length_le (cols : Nat) (g : Grid) :
    (rowZeroStarts cols g).length ≤ cols := by
  unfold rowZeroStarts
  exact le_trans (List.length_filter_le _ _) (by rw [List.length_map, List.length_range])

/-- Loop invariants of the BFS of `dropFloatingBubbles`: every marked cell is
reachable from a seed, all seeds and queue entries end up marked, and the
final mark set is closed under occupied adjacency. -/
theorem reachAux_spec (rows cols : Nat) (g : Grid) (hWF : wfGrid rows cols g = true)
    (S : List (Nat × Nat)) :
    ∀ (fuel : Nat) (q : List (Nat × Nat)) (connected : Finset (Nat × Nat)),
      bfsMeasure rows cols q connected < fuel →
      (∀ p ∈ q, occupied g p = true) →
      (∀ p ∈ q, ∃ s ∈ S, Relation.ReflTransGen (occStep rows cols g) s p) →
      (∀ p ∈ connected, ∃ s ∈ S, Relation.ReflTransGen (occStep rows cols g) s p) →
      (∀ y ∈ connected, ∀ x ∈ nbrs rows cols y.1 y.2, occupied g x = true →
        x ∈ q ∨ x ∈ connected) →
      (∀ p ∈ reachAux rows cols g fuel q connected,
        ∃ s ∈ S, Relation.ReflTransGen (occStep rows cols g) s p) ∧
      (∀ p ∈ connected, p ∈ reachAux rows cols g fuel q connected) ∧
      (∀ p ∈ q, p ∈ reachAux rows cols g fuel q connected) ∧
      (∀ y ∈ reachAux rows cols g fuel q connected, ∀ x ∈ nbrs rows cols y.1 y.2,
        occupied g x = true → x ∈ reachAux rows cols g fuel q connected) := by
  intro fuel
  induction fuel with
  | zero =>
    intro q connected hm
    exact absurd hm (Nat.not_lt_zero _)
  | succ n ih =>
    intro q connected hm hQocc hQreach hC hF
    cases q with
    | nil =>
      simp only [reachAux]
      refine ⟨hC, fun p hp => hp, ?_, ?_⟩
      · intro p hp
        exact absurd hp (List.not_mem_nil p)
      · intro y hy x hx hox
        rcases hF y hy x hx hox with h | h
        · exact absurd h (List.not_mem_nil x)
        · exact h
    | cons p q' =>
      simp only [reachAux]
      by_cases hp : p ∈ connected
      · rw [if_pos hp]
        have hm' : bfsMeasure rows cols q' connected < n := by
          unfold bfsMeasure at hm ⊢
          rw [List.length_cons] at hm
          omega
        have hF' : ∀ y ∈ connected, ∀ x ∈ nbrs rows cols y.1 y.2, occupied g x = true →
            x ∈ q' ∨ x ∈ connected := by
          intro y hy x hx hox
          rcases hF y hy x hx hox with h | h
          · rcases List.mem_cons.mp h with h1 | h1
            · exact Or.inr (h1 ▸ hp)
            · exact Or.inl h1
          · exact Or.inr h
        obtain ⟨c1, c2, c3, c4⟩ := ih q' connected hm'
          (fun x hx => hQocc x (List.mem_cons_of_mem _ hx))
          (fun x hx => hQreach x (List.mem_cons_of_mem _ hx)) hC hF'
        refine ⟨c1, c2, ?_, c4⟩
        intro x hx
        rcases List.mem_cons.mp hx with h1 | h1
        · exact c2 x (h1 ▸ hp)
        · exact c3 x h1
      · rw [if_neg hp]
        have hocc : occupied g p = true := hQocc p (List.mem_cons_self _ _)
        have hpv : p ∈ validCells rows cols := mem_validCells.mpr (occupied_lt hWF hocc)
        have hpm : p ∈ validCells rows cols \ connected := Finset.mem_sdiff.mpr ⟨hpv, hp⟩
        have hcard : ((validCells rows cols) \ insert p connected).card =
            ((validCells rows cols) \ connected).card - 1 := by
          rw [Finset.sdiff_insert, Finset.card_erase_of_mem hpm]
        have hcpos : 0 < ((validCells rows cols) \ connected).card :=
          Finset.card_pos.mpr ⟨p, hpm⟩
        have hns : ((nbrs rows cols p.1 p.2).filter fun x => occupied g x).length ≤ 4 :=
          le_trans (List.length_filter_le _ _) (nbrs_length_le rows cols p.1 p.2)
        have hm' : bfsMeasure rows cols
            (q' ++ (nbrs rows cols p.1 p.2).filter fun x => occupied g x)
            (insert p connected) < n := by
          unfold bfsMeasure at hm ⊢
          rw [List.length_cons] at hm
          rw [List.length_append, hcard]
          omega
        have hpreach : ∃ s ∈ S, Relation.ReflTransGen (occStep rows cols g) s p :=
          hQreach p (List.mem_cons_self _ _)
        have hQocc' : ∀ x ∈ q' ++ (nbrs rows cols p.1 p.2).filter fun y => occupied g y,
            occupied g x = true := by
          intro x hx
          rcases List.mem_append.mp hx with h | h
          · exact hQocc x (List.mem_cons_of_mem _ h)
          · exact (List.mem_filter.mp h).2
        have hQreach' : ∀ x ∈ q' ++ (nbrs rows cols p.1 p.2).filter fun y => occupied g y,
            ∃ s ∈ S, Relation.ReflTransGen (occStep rows cols g) s x := by
          intro x hx
          rcases List.mem_append.mp hx with h | h
          · exact hQreach x (List.mem_cons_of_mem _ h)
          · obtain ⟨hn, hox⟩ := List.mem_filter.mp h
            obtain ⟨s, hs, hr⟩ := hpreach
            exact ⟨s, hs, Relation.ReflTransGen.tail hr ⟨hn, hox⟩⟩
        have hC' : ∀ x ∈ insert p connected,
            ∃ s ∈ S, Relation.ReflTransGen (occStep rows cols g) s x := by
          intro x hx
          rcases Finset.mem_insert.mp hx with h | h
          · exact h ▸ hpreach
          · exact hC x h
        have hF' : ∀ y ∈ insert p connected, ∀ x ∈ nbrs rows cols y.1 y.2,
            occupied g x = true →
            x ∈ q' ++ (nbrs rows cols p.1 p.2).filter (fun z => occupied g z) ∨
            x ∈ insert p connected := by
          intro y hy x hx hox
          rcases Finset.mem_insert.mp hy with h | h
          · subst h
            exact Or.inl (List.mem_append_right _ (List.mem_filter.mpr ⟨hx, hox⟩))
          · rcases hF y h x hx hox with h1 | h1
            · rcases List.mem_cons.mp h1 with h2 | h2
              · exact Or.inr (h2 ▸ Finset.mem_insert_self p connected)
              · exact Or.inl (List.mem_append_left _ h2)
            · exact Or.inr (Finset.mem_insert_of_mem h1)
        obtain ⟨c1, c2, c3, c4⟩ := ih _ _ hm' hQocc' hQreach' hC' hF'
        refine ⟨c1, ?_, ?_, c4⟩
        · intro x hx
          exact c2 x (Finset.mem_insert_of_mem hx)
        · intro x hx
          rcases List.mem_cons.mp hx with h1 | h1
          · exact c2 x (h1 ▸ Finset.mem_insert_self p connected)
          · exact c3 x (List.mem_append_left _ h1)

/-- The mark set computed by `dropFloatingBubbles` is exactly the set of
grounded cells. -/
theorem mem_connectedSet (rows cols : Nat) (g : Grid) (hWF : wfGrid rows cols g = true) :
    ∀ p, p ∈ connectedSet rows cols g ↔ Grounded rows cols g p := by
  have hq0occ : ∀ p ∈ rowZeroStarts cols g, occupied g p = true :=
    fun p hp => (mem_rowZeroStarts.mp hp).2.2
  have hcard : ((validCells rows cols : Finset (Nat × Nat)) \ ∅).card ≤ rows * cols := by
    rw [Finset.sdiff_empty]
    unfold validCells
    rw [Finset.card_product, Finset.card_range, Finset.card_range]
  have hq0len := rowZeroStarts_length_le cols g
  have hm : bfsMeasure rows cols (rowZeroStarts cols g) ∅ < 6 * (rows * cols) + 2 := by
    unfold bfsMeasure
    by_cases hrows : rows = 0
    · subst hrows
      have hg : g = [] := by
        unfold wfGrid at hWF
        rw [Bool.and_eq_true, beq_iff_eq] at hWF
        exact List.length_eq_zero.mp hWF.1
      subst hg
      have h0 : rowZeroStarts cols ([] : Grid) = [] := by
        apply List.filter_eq_nil_iff.mpr
        intro p _
        simp [occupied, getCell]
      rw [h0]
      simp only [List.length_nil]
      omega
    · have h1 : cols ≤ rows * cols := Nat.le_mul_of_pos_left cols (by omega)
      omega
  obtain ⟨c1, c2, c3, c4⟩ := reachAux_spec rows cols g hWF (rowZeroStarts cols g) _
    (rowZeroStarts cols g) ∅ hm hq0occ
    (fun p hp => ⟨p, hp, Relation.ReflTransGen.refl⟩)
    (fun p hp => absurd hp (Finset.not_mem_empty p))
    (fun y hy => absurd hy (Finset.not_mem_empty y))
  intro p
  constructor
  · exact c1 p
  · rintro ⟨s, hs, hr⟩
    induction hr with
    | refl => exact c3 s hs
    | tail h1 h2 ih => exact c4 _ ih _ h2.1 h2.2

theorem grounded_occupied {rows cols : Nat} {g : Grid} {p : Nat × Nat}
    (h : Grounded rows cols g p) : occupied g p = true := by
  obtain ⟨s, hs, hr⟩ := h
  rcases Relation.ReflTransGen.cases_tail hr with h1 | ⟨m, _, hstep⟩
  · rw [h1]
    exact (mem_rowZeroStarts.mp hs).2.2
  · exact hstep.2

theorem mem_allCellsList {rows cols : Nat} {p : Nat × Nat} :
    p ∈ allCellsList rows cols ↔ p.1 < rows ∧ p.2 < cols := by
  unfold allCellsList
  rw [List.mem_flatMap]
  constructor
  · rintro ⟨r, hr, hp⟩
    rw [List.mem_map] at hp
    obtain ⟨c, hc, rfl⟩ := hp
    exact ⟨List.mem_range.mp hr, List.mem_range.mp hc⟩
  · rintro ⟨h1, h2⟩
    exact ⟨p.1, List.mem_range.mpr h1,
      List.mem_map.mpr ⟨p.2, List.mem_range.mpr h2, rfl⟩⟩

theorem mem_dropList {rows cols : Nat} {g : Grid} {connected : Finset (Nat × Nat)}
    {p : Nat × Nat} :
    p ∈ dropList rows cols g connected ↔
      p.1 < rows ∧ p.2 < cols ∧ occupied g p = true ∧ p ∉ connected := by
  unfold dropList
  rw [List.mem_filter, mem_allCellsList, Bool.and_eq_true, Bool.not_eq_true',
    decide_eq_false_iff_not]
  tauto

/-- The grid returned by `dropFloatingBubbles` keeps exactly the occupied
cells that were marked as connected to the ceiling. -/
theorem occupied_drop_iff (rows cols : Nat) (g : Grid) (hWF : wfGrid rows cols g = true)
    (p : Nat × Nat) :
    occupied (dropFloatingBubbles rows cols g).1 p = true ↔
      occupied g p = true ∧ p ∈ connectedSet rows cols g := by
  have heq : (dropFloatingBubbles rows cols g).1 =
      clearCells g (dropList rows cols g (connectedSet rows cols g)) := rfl
  rw [heq]
  constructor
  · intro h1
    by_cases hd : p ∈ dropList rows cols g (connectedSet rows cols g)
    · rw [occupied, getCell_clearCells_mem hd] at h1
      exact absurd h1 (by decide)
    · rw [occupied, getCell_clearCells_not_mem hd] at h1
      refine ⟨h1, ?_⟩
      by_contra hconn
      exact hd (mem_dropList.mpr ⟨(occupied_lt hWF h1).1, (occupied_lt hWF h1).2, h1, hconn⟩)
  · rintro ⟨hocc, hconn⟩
    have hd : p ∉ dropList rows cols g (connectedSet rows cols g) :=
      fun hmem => (mem_dropList.mp hmem).2.2.2 hconn
    rw [occupied, getCell_clearCells_not_mem hd]
    exact hocc

theorem wfGrid_setCell {rows cols : Nat} {g : Grid} (r c : Nat) (v : Option String)
    (hWF : wfGrid rows cols g = true) : wfGrid rows cols (setCell g r c v) = true := by
  unfold wfGrid at hWF ⊢
  rw [Bool.and_eq_true, beq_iff_eq, List.all_eq_true] at hWF ⊢
  unfold setCell
  cases hrow : g.get? r with
  | none => exact ⟨hWF.1, hWF.2⟩
  | some row =>
    refine ⟨by rw [List.length_set]; exact hWF.1, ?_⟩
    intro row' hrow'
    rcases List.mem_or_eq_of_mem_set hrow' with h | h
    · exact hWF.2 row' h
    · subst h
      rw [beq_iff_eq, List.length_set]
      have hmem : row ∈ g := by
        rw [List.get?_eq_getElem?] at hrow
        exact List.getElem?_mem hrow
      exact beq_iff_eq.mp (hWF.2 row hmem)

theorem wfGrid_clearCells {rows cols : Nat} {cells : List (Nat × Nat)} :
    ∀ {g : Grid}, wfGrid rows cols g = true → wfGrid rows cols (clearCells g cells) = true := by
  induction cells with
  | nil => intro g h; exact h
  | cons a t ih =>
    intro g h
    exact ih (wfGrid_setCell a.1 a.2 none h)

/-- A reachability chain survives into a subgrid in which every cell
reachable from the same seed is still occupied. -/
theorem reach_transfer (rows cols : Nat) (g g' : Grid) (s p : Nat × Nat)
    (hr : Relation.ReflTransGen (occStep rows cols g) s p)
    (hkeep : ∀ x, Relation.ReflTransGen (occStep rows cols g) s x → occupied g' x = true) :
    Relation.ReflTransGen (occStep rows cols g') s p := by
  induction hr with
  | refl => exact Relation.ReflTransGen.refl
  | tail h1 h2 ih =>
    exact Relation.ReflTransGen.tail ih ⟨h2.1, hkeep _ (Relation.ReflTransGen.tail h1 h2)⟩

/-- C8.  Floating cleanup is idempotent: running `dropFloatingBubbles` twice
in a row with no intervening placement leaves the grid of the first run
untouched, and the second run clears zero cells (so its score contribution,
5 per cleared cell, is zero). -/
theorem bubble_drop_idempotent (rows cols : Nat) (g : Grid)
    (hWF : wfGrid rows cols g = true) :
    (dropFloatingBubbles rows cols (dropFloatingBubbles rows cols g).1).1 =
      (dropFloatingBubbles rows cols g).1 ∧
    (dropFloatingBubbles rows cols (dropFloatingBubbles rows cols g).1).2 = 0 := by
  have hWF1 : wfGrid rows cols (dropFloatingBubbles rows cols g).1 = true :=
    wfGrid_clearCells hWF
  have hkey : ∀ p, occupied (dropFloatingBubbles rows cols g).1 p = true →
      p ∈ connectedSet rows cols (dropFloatingBubbles rows cols g).1 := by
    intro p hp
    have h1 := (occupied_drop_iff rows cols g hWF p).mp hp
    have hg : Grounded rows cols g p := (mem_connectedSet rows cols g hWF p).mp h1.2
    obtain ⟨s, hs, hr⟩ := hg
    have hkeep : ∀ x, Relation.ReflTransGen (occStep rows cols g) s x →
        occupied (dropFloatingBubbles rows cols g).1 x = true := by
      intro x hx
      have hgx : Grounded rows cols g x := ⟨s, hs, hx⟩
      exact (occupied_drop_iff rows cols g hWF x).mpr
        ⟨grounded_occupied hgx, (mem_connectedSet rows cols g hWF x).mpr hgx⟩
    have hr1 := reach_transfer rows cols g (dropFloatingBubbles rows cols g).1 s p hr hkeep
    have hso := mem_rowZeroStarts.mp hs
    have hs1 : s ∈ rowZeroStarts cols (dropFloatingBubbles rows cols g).1 :=
      mem_rowZeroStarts.mpr ⟨hso.1, hso.2.1, hkeep s Relation.ReflTransGen.refl⟩
    exact (mem_connectedSet rows cols (dropFloatingBubbles rows cols g).1 hWF1 p).mpr
      ⟨s, hs1, hr1⟩
  have hnil : dropList rows cols (dropFloatingBubbles rows cols g).1
      (connectedSet rows cols (dropFloatingBubbles rows cols g).1) = [] := by
    apply List.filter_eq_nil_iff.mpr
    intro p _ hpred
    rw [Bool.and_eq_true, Bool.not_eq_true', decide_eq_false_iff_not] at hpred
    exact hpred.2 (hkey p hpred.1)
  have heq2 : dropFloatingBubbles rows cols (dropFloatingBubbles rows cols g).1 =
      (clearCells (dropFloatingBubbles rows cols g).1
        (dropList rows cols (dropFloatingBubbles rows cols g).1
          (connectedSet rows cols (dropFloatingBubbles rows cols g).1)),
       (dropList rows cols (dropFloatingBubbles rows cols g).1
          (connectedSet rows cols (dropFloatingBubbles rows cols g).1)).length) := rfl
  rw [heq2, hnil]
  exact ⟨rfl, rfl⟩

/-- Witness for C2 on `clusterGrid`: the component of `(0,0)` has the three
red cells, `popClusters` clears all of them and reports 3, and the score
strictly increases. -/
theorem bubble_cluster_clear_witness :
    (popClusters 2 2 clusterGrid 0 0).2 = 3 ∧
    getCell (popClusters 2 2 clusterGrid 0 0).1 0 0 = none ∧
    getCell (popClusters 2 2 clusterGrid 0 0).1 0 1 = none ∧
    getCell (popClusters 2 2 clusterGrid 0 0).1 1 0 = none ∧
    0 < scoreAfterPop 0 (popClusters 2 2 clusterGrid 0 0).2 := by
  obtain ⟨hiff, hnd, h3, h2⟩ :=
    bubble_cluster_clear 2 2 clusterGrid 0 0 red (by decide) (by decide)
  have hlen : 3 ≤ (bfsGroup 2 2 clusterGrid red (5 * (2 * 2) + 2)
      [(0, 0)] ∅ []).length := by decide
  obtain ⟨hcount, hclear, hkeep, hscore⟩ := h3 hlen
  refine ⟨by rw [hcount]; decide, ?_, ?_, ?_, hscore 0⟩
  · exact hclear (0, 0) ((hiff (0, 0)).mp (by decide))
  · exact hclear (0, 1) ((hiff (0, 1)).mp (by decide))
  · exact hclear (1, 0) ((hiff (1, 0)).mp (by decide))

/-- Witness for C8 on `floatGrid`. -/
theorem bubble_drop_idempotent_witness :
    (dropFloatingBubbles 3 2 (dropFloatingBubbles 3 2 floatGrid).1).1 =
      (dropFloatingBubbles 3 2 floatGrid).1 ∧
    (dropFloatingBubbles 3 2 (dropFloatingBubbles 3 2 floatGrid).1).2 = 0 :=
  bubble_drop_idempotent 3 2 floatGrid (by decide)

theorem popClusters_getCell (rows cols : Nat) (g : Grid) (r c : Nat) (p : Nat × Nat) :
    getCell (popClusters rows cols g r c).1 p.1 p.2 = getCell g p.1 p.2 ∨
    getCell (popClusters rows cols g r c).1 p.1 p.2 = none := by
  unfold popClusters
  cases h : getCell g r c with
  | none => exact Or.inl rfl
  | some target =>
    dsimp only
    split
    · by_cases hp : p ∈ bfsGroup rows cols g target (5 * (rows * cols) + 2) [(r, c)] ∅ []
      · exact Or.inr (getCell_clearCells_mem hp)
      · exact Or.inl (getCell_clearCells_not_mem hp)
    · exact Or.inl rfl

theorem dropFloating_getCell (rows cols : Nat) (g : Grid) (p : Nat × Nat) :
    getCell (dropFloatingBubbles rows cols g).1 p.1 p.2 = getCell g p.1 p.2 ∨
    getCell (dropFloatingBubbles rows cols g).1 p.1 p.2 = none := by
  have heq : (dropFloatingBubbles rows cols g).1 =
      clearCells g (dropList rows cols g (connectedSet rows cols g)) := rfl
  rw [heq]
  by_cases hp : p ∈ dropList rows cols g (connectedSet rows cols g)
  · exact Or.inr (getCell_clearCells_mem hp)
  · exact Or.inl (getCell_clearCells_not_mem hp)

theorem finishAttach_getCell (rows cols : Nat) (g : Grid) (rr cc : Nat) (p : Nat × Nat) :
    getCell (finishAttach rows cols g rr cc).1 p.1 p.2 = getCell g p.1 p.2 ∨
    getCell (finishAttach rows cols g rr cc).1 p.1 p.2 = none := by
  have heq : (finishAttach rows cols g rr cc).1 =
      (dropFloatingBubbles rows cols (popClusters rows cols g rr cc).1).1 := rfl
  rw [heq]
  rcases dropFloating_getCell rows cols (popClusters rows cols g rr cc).1 p with h2 | h2
  · rcases popClusters_getCell rows cols g rr cc p with h1 | h1
    · exact Or.inl (h2.trans h1)
    · exact Or.inr (h2.trans h1)
  · exact Or.inr h2

theorem spiralFindEmpty_empty {rows cols r0 c0 : Nat} {g : Grid} {f : Nat × Nat}
    (h : spiralFindEmpty rows cols r0 c0 g = some f) : occupied g f = false := by
  unfold spiralFindEmpty at h
  rw [Option.map_eq_some'] at h
  obtain ⟨q, hq, rfl⟩ := h
  have hpred := List.find?_some hq
  simp only [Bool.and_eq_true, Bool.not_eq_true'] at hpred
  exact hpred.2

/-- C10.  Attachment never overwrites an occupied cell: after
`attachShotToGrid`, every cell that was occupied either still holds its old
colour or has been cleared (by the cluster pop or the floating drop); the
write of the projectile colour only ever targets an empty cell. -/
theorem bubble_attach_no_overwrite {K : Type} [LinearOrderedField K] [FloorRing K]
    (rows cols : Nat) (g : Grid) (shot : Shot K) (around : Option (Nat × Nat))
    (p : Nat × Nat) (hocc : occupied g p = true) :
    getCell (attachShotToGrid rows cols g shot around).1 p.1 p.2 = getCell g p.1 p.2 ∨
    getCell (attachShotToGrid rows cols g shot around).1 p.1 p.2 = none := by
  have hwrite : ∀ (f : Nat × Nat), occupied g f = false →
      getCell (setCell g f.1 f.2 (some shot.color)) p.1 p.2 = getCell g p.1 p.2 := by
    intro f hf
    refine getCell_setCell_ne ?_
    intro h
    have hpf : p = f := h
    rw [← hpf, hocc] at hf
    exact absurd hf (by decide)
  unfold attachShotToGrid
  dsimp only
  by_cases hcr : occupied g ((attachTargetCell rows cols g shot around).2,
      (attachTargetCell rows cols g shot around).1) = true
  · rw [if_pos hcr]
    cases hsp : spiralFindEmpty rows cols (attachTargetCell rows cols g shot around).2
        (attachTargetCell rows cols g shot around).1 g with
    | none => exact finishAttach_getCell rows cols g _ _ p
    | some f =>
      have hf : occupied g f = false := spiralFindEmpty_empty hsp
      rcases finishAttach_getCell rows cols (setCell g f.1 f.2 (some shot.color)) f.1 f.2 p
        with h | h
      · rw [hwrite f hf] at h
        exact Or.inl h
      · exact Or.inr h
  · rw [if_neg hcr]
    have hf : occupied g ((attachTargetCell rows cols g shot around).2,
        (attachTargetCell rows cols g shot around).1) = false :=
      Bool.not_eq_true _ ▸ Bool.of_not_eq_true hcr
    rcases finishAttach_getCell rows cols
      (setCell g (attachTargetCell rows cols g shot around).2
        (attachTargetCell rows cols g shot around).1 (some shot.color))
      (attachTargetCell rows cols g shot around).2
      (attachTargetCell rows cols g shot around).1 p with h | h
    · rw [hwrite _ hf] at h
      exact Or.inl h
    · exact Or.inr h

/-- Witness for C10 on `pairGrid`: the projectile writes into the empty cell
`(0, 1)` and the red cell `(0, 0)` keeps its colour. -/
theorem bubble_attach_no_overwrite_witness :
    getCell (attachShotToGrid 1 2 pairGrid attachShot none).1 0 0 =
      getCell pairGrid 0 0 ∨
    getCell (attachShotToGrid 1 2 pairGrid attachShot none).1 0 0 = none :=
  bubble_attach_no_overwrite 1 2 pairGrid attachShot none (0, 0) (by decide)

/-- `dropFloatingBubbles` is the identity when every occupied cell is
grounded. -/
theorem dropFloating_noop (rows cols : Nat) (g : Grid) (hWF : wfGrid rows cols g = true)
    (hground : ∀ p, occupied g p = true → Grounded rows cols g p) :
    dropFloatingBubbles rows cols g = (g, 0) := by
  have hnil : dropList rows cols g (connectedSet rows cols g) = [] := by
    apply List.filter_eq_nil_iff.mpr
    intro p _ hpred
    rw [Bool.and_eq_true, Bool.not_eq_true', decide_eq_false_iff_not] at hpred
    exact hpred.2 ((mem_connectedSet rows cols g hWF p).mpr (hground p hpred.1))
  have heq : dropFloatingBubbles rows cols g =
      (clearCells g (dropList rows cols g (connectedSet rows cols g)),
       (dropList rows cols g (connectedSet rows cols g)).length) := rfl
  rw [heq, hnil]
  rfl

/-- C3, counterexample.  The claim asserts that an exhausted attachment
search leaves the grid contents and the score unchanged.  On the full red
`1 × 3` row the preferred cell `(0, 1)` is occupied, the neighbour search and
the spiral fallback find no empty cell, so the projectile is dropped without
attaching — but `attachShotToGrid` still runs `popClusters` seeded at the
occupied preferred cell, which clears the pre-existing red triple and awards
score, refuting the claim as stated. -/
theorem bubble_attach_noop_counterexample :
    occupied rowGrid ((attachTargetCell 1 3 rowGrid stuckShot none).2,
      (attachTargetCell 1 3 rowGrid stuckShot none).1) = true ∧
    spiralFindEmpty 1 3 (attachTargetCell 1 3 rowGrid stuckShot none).2
      (attachTargetCell 1 3 rowGrid stuckShot none).1 rowGrid = none ∧
    (attachShotToGrid 1 3 rowGrid stuckShot none).1 ≠ rowGrid ∧
    0 < (attachShotToGrid 1 3 rowGrid stuckShot none).2 := by
  have hw : worldToCell (K := ℚ) 1 3 (40 : ℚ) (90 : ℚ) = (0, 1) := by
    unfold worldToCell
    norm_num
  have hcr : attachTargetCell 1 3 rowGrid stuckShot none = (1, 0) := by
    unfold attachTargetCell
    rw [show stuckShot.x = (40 : ℚ) from rfl, show stuckShot.y = (90 : ℚ) from rfl, hw]
    rfl
  have hattach : attachShotToGrid 1 3 rowGrid stuckShot none =
      finishAttach 1 3 rowGrid 0 1 := by
    unfold attachShotToGrid
    rw [hcr]
    rfl
  rw [hcr, hattach]
  exact ⟨by decide, by decide, by decide, by decide⟩

/-- C3, amended.  When the resolved attachment cell is occupied and the
spiral fallback finds no empty cell, the projectile is discarded without any
write: the result equals running the cluster-pop and floating-cleanup passes
on the unchanged grid; in particular, when the same-colour component of the
resolved cell has fewer than 3 cells and every occupied cell is grounded
(both invariants of a normally-evolving board), the grid and the score are
left exactly unchanged. -/
theorem bubble_attach_exhausted {K : Type} [LinearOrderedField K] [FloorRing K]
    (rows cols : Nat) (g : Grid) (shot : Shot K) (around : Option (Nat × Nat))
    (hWF : wfGrid rows cols g = true)
    (hocc : occupied g ((attachTargetCell rows cols g shot around).2,
      (attachTargetCell rows cols g shot around).1) = true)
    (hspiral : spiralFindEmpty rows cols (attachTargetCell rows cols g shot around).2
      (attachTargetCell rows cols g shot around).1 g = none)
    (hsmall : ∀ target, getCell g (attachTargetCell rows cols g shot around).2
        (attachTargetCell rows cols g shot around).1 = some target →
      (bfsGroup rows cols g target (5 * (rows * cols) + 2)
        [((attachTargetCell rows cols g shot around).2,
          (attachTargetCell rows cols g shot around).1)] ∅ []).length < 3)
    (hground : ∀ p, occupied g p = true → Grounded rows cols g p) :
    attachShotToGrid rows cols g shot around =
      finishAttach rows cols g (attachTargetCell rows cols g shot around).2
        (attachTargetCell rows cols g shot around).1 ∧
    attachShotToGrid rows cols g shot around = (g, 0) := by
  have h1 : attachShotToGrid rows cols g shot around =
      finishAttach rows cols g (attachTargetCell rows cols g shot around).2
        (attachTargetCell rows cols g shot around).1 := by
    unfold attachShotToGrid
    dsimp only
    rw [if_pos hocc, hspiral]
  refine ⟨h1, h1.trans ?_⟩
  have hpop : popClusters rows cols g (attachTargetCell rows cols g shot around).2
      (attachTargetCell rows cols g shot around).1 = (g, 0) := by
    unfold occupied at hocc
    rw [Option.isSome_iff_exists] at hocc
    obtain ⟨target, htarget⟩ := hocc
    unfold popClusters
    rw [htarget]
    dsimp only
    rw [if_neg (by have := hsmall target htarget; omega)]
  have hdrop := dropFloating_noop rows cols g hWF hground
  unfold finishAttach
  rw [hpop]
  dsimp only
  rw [hdrop]
  rfl

/-- Witness for the amended C3 on `mixedRowGrid`: every search is exhausted,
no colour triple exists and nothing floats, so the attachment is a no-op. -/
theorem bubble_attach_exhausted_witness :
    attachShotToGrid 1 3 mixedRowGrid stuckShot none =
      finishAttach 1 3 mixedRowGrid (attachTargetCell 1 3 mixedRowGrid stuckShot none).2
        (attachTargetCell 1 3 mixedRowGrid stuckShot none).1 ∧
    attachShotToGrid 1 3 mixedRowGrid stuckShot none = (mixedRowGrid, 0) := by
  have hw : worldToCell (K := ℚ) 1 3 (40 : ℚ) (90 : ℚ) = (0, 1) := by
    unfold worldToCell
    norm_num
  have hcr : attachTargetCell 1 3 mixedRowGrid stuckShot none = (1, 0) := by
    unfold attachTargetCell
    rw [show stuckShot.x = (40 : ℚ) from rfl, show stuckShot.y = (90 : ℚ) from rfl, hw]
    rfl
  refine bubble_attach_exhausted 1 3 mixedRowGrid stuckShot none (by decide) ?_ ?_ ?_ ?_
  · rw [hcr]
    decide
  · rw [hcr]
    decide
  · rw [hcr]
    intro target htarget
    have hts : target = teal := by
      have he : getCell mixedRowGrid 0 1 = some teal := by decide
      rw [he] at htarget
      injection htarget with h
      exact h.symm
    subst hts
    decide
  · intro p hp
    have hb := @occupied_lt 1 3 mixedRowGrid p (by decide) hp
    exact ⟨p, mem_rowZeroStarts.mpr ⟨by omega, hb.2, hp⟩, Relation.ReflTransGen.refl⟩

/-- C9.  When a scheduled row shift fires (the running, non-terminal engine
accumulates the shift interval) while some bottom-row cell is occupied, the
shift phase transitions to the terminal state — `gameOver` set, `running`
cleared — performing no grid mutation (no rows moved, no top row seeded);
and once terminal, every subsequent `update` call is a strict no-op that
returns the state unchanged. -/
theorem bubble_rowshift_terminal (width height : ℝ) (rows cols : Nat)
    (rng : BubbleRng) (dt : ℝ) (s : BState)
    (_hrun : s.running = true) (_hgo : s.gameOver = false)
    (htime : 6000 ≤ s.timer + dt)
    (hbot : bottomRowOccupied rows cols s.grid = true) :
    (shiftPhase rows cols rng dt s).gameOver = true ∧
    (shiftPhase rows cols rng dt s).running = false ∧
    (shiftPhase rows cols rng dt s).grid = s.grid ∧
    (∀ (dt' : ℝ) (s' : BState), s'.gameOver = true →
      update width height rows cols rng dt' s' = s') := by
  have hshift : shiftRowsDown rows cols (fun c => rng.seedSeq (s.rngIdx + c)) s.grid =
      (s.grid, true) := by
    unfold shiftRowsDown
    rw [if_pos hbot]
  have hphase : shiftPhase rows cols rng dt s =
      { s with timer := 0, running := false, gameOver := true } := by
    unfold shiftPhase
    rw [if_pos htime, hshift]
    rfl
  refine ⟨by rw [hphase], by rw [hphase], by rw [hphase], ?_⟩
  intro dt' s' hgo'
  unfold update
  rw [if_pos]
  rw [hgo', Bool.or_true]

/-- Witness for C9 on `brinkState`: the timer fires with the bottom row
occupied; the state goes terminal with the grid intact, and a further
`update` on the terminal state returns it unchanged. -/
theorem bubble_rowshift_terminal_witness :
    (shiftPhase 1 1 constRng 6000 brinkState).gameOver = true ∧
    (shiftPhase 1 1 constRng 6000 brinkState).running = false ∧
    (shiftPhase 1 1 constRng 6000 brinkState).grid = brinkState.grid ∧
    (∀ (dt' : ℝ) (s' : BState), s'.gameOver = true →
      update 480 640 1 1 constRng dt' s' = s') :=
  bubble_rowshift_terminal 480 640 1 1 constRng 6000 brinkState rfl rfl
    (by show (6000 : ℝ) ≤ 0 + 6000; norm_num) (by decide)

end Bubble

namespace Racer

/-- The four boolean control flags written by `setInput`. -/
structure RInput where
  up : Bool
  down : Bool
  left : Bool
  right : Bool

/-- Engine state of `createRacingEngine`: pose, velocity, heading angle, lap
counter, elapsed time, and the last finish-crossing direction.  Coordinates
are idealised as real numbers. -/
structure RState where
  px : ℝ
  py : ℝ
  vx : ℝ
  vy : ℝ
  angle : ℝ
  laps : Nat
  timeMs : ℝ
  lastCrossedDir : Int

/-- `params.accel` (px/ms²). -/
def accel : ℝ := 0.0018

/-- `params.brakeAccel`. -/
def brakeAccel : ℝ := 0.0022

/-- `params.maxSpeed` (px/ms). -/
def maxSpeed : ℝ := 0.5

/-- `params.friction` (speed loss per ms). -/
def friction : ℝ := 0.0009

/-- `params.turnRate` (rad/ms). -/
def turnRate : ℝ := 0.0045

/-- The speed clamp of `step`: when `Math.hypot(vx, vy)` exceeds `maxSpeed`,
both components are scaled by `maxSpeed / speed`. -/
noncomputable def velAfterClamp (vx vy : ℝ) : ℝ × ℝ :=
  let speed := Real.sqrt (vx * vx + vy * vy)
  if maxSpeed < speed then (vx * (maxSpeed / speed), vy * (maxSpeed / speed))
  else (vx, vy)

/-- One axis of the bounds clamp of `step`: clamp the integrated position
into `[lo, hi]`, zeroing the velocity component on contact; the second test
reads the already-clamped position, as in the source. -/
noncomputable def clampAxis (lo hi p v : ℝ) : ℝ × ℝ :=
  let p2 := if p < lo then lo else p
  let v2 := if p < lo then (0 : ℝ) else v
  (if hi < p2 then hi else p2, if hi < p2 then (0 : ℝ) else v2)

/-- The angular update of `step`: `angle -= turnRate·dt` when turning left,
`angle += turnRate·dt` when turning right (both flags may hold). -/
noncomputable def angleAfterTurn (inp : RInput) (dt : ℝ) (angle : ℝ) : ℝ :=
  let a1 := if inp.left then angle - turnRate * dt else angle
  if inp.right then a1 + turnRate * dt else a1

/-- The acceleration stage of `step`: accumulate throttle and brake along
the forward vector of the post-turn heading. -/
noncomputable def velPreClamp (inp : RInput) (dt : ℝ) (s : RState) : ℝ × ℝ :=
  let a2 := angleAfterTurn inp dt s.angle
  let acc1 : ℝ := if inp.up then accel else 0
  let acc : ℝ := if inp.down then acc1 - brakeAccel else acc1
  (s.vx + Real.cos a2 * acc * dt, s.vy + Real.sin a2 * acc * dt)

/-- `step(dtMs)` up to and including the bounds clamp: turn, accelerate
along the heading, clamp the speed, apply frictional decay, integrate the
position and clamp it to the track bounds.  The source interleaves the
x-axis and y-axis clamp tests (`x<10`, `y<10`, `x>w-10`, `y>h-10`); the two
axes touch disjoint state, so they are modelled as one `clampAxis` per
axis. -/
noncomputable def integrate (width height : ℝ) (inp : RInput) (dt : ℝ)
    (s : RState) : RState :=
  let v1 := velPreClamp inp dt s
  let v2 := velAfterClamp v1.1 v1.2
  let fr := 1 - friction * dt
  let v3x := v2.1 * fr
  let v3y := v2.2 * fr
  let xc := clampAxis 10 (width - 10) (s.px + v3x * dt) v3x
  let yc := clampAxis 10 (height - 10) (s.py + v3y * dt) v3y
  { s with px := xc.1, py := yc.1, vx := xc.2, vy := yc.2,
           angle := angleAfterTurn inp dt s.angle, timeMs := s.timeMs + dt }

/-- The lap-detection tail of `step`: reconstruct the previous y from the
last velocity delta, detect a straddle of the finish line `y = 60` within
the segment's x-range, count a lap only for the upward direction, and record
the crossing direction (0 when no crossing). -/
noncomputable def lapUpdate (width : ℝ) (dt : ℝ) (m : RState) : RState :=
  let prevY := m.py - m.vy * dt
  let crosses := ((prevY > 60 ∧ m.py ≤ 60) ∨ (prevY < 60 ∧ m.py ≥ 60)) ∧
    width / 2 - 40 ≤ m.px ∧ m.px ≤ width / 2 + 40
  if crosses then
    let dir : Int := if prevY > 60 ∧ m.py ≤ 60 then 1 else -1
    { m with laps := if dir = 1 then m.laps + 1 else m.laps, lastCrossedDir := dir }
  else { m with lastCrossedDir := 0 }

/-- `step(dtMs)` of the racing engine. -/
noncomputable def racerStep (width height : ℝ) (inp : RInput) (dt : ℝ)
    (s : RState) : RState :=
  lapUpdate width dt (integrate width height inp dt s)

/-- A sequence of `step` calls with the input flags overwritten (via
`setInput`) before each tick. -/
noncomputable def runSteps (width height : ℝ) (l : List (RInput × ℝ))
    (s : RState) : RState :=
  l.foldl (fun st p => racerStep width height p.1 p.2 st) s

/-- The state installed by `reset()` for the default construction
(`width = 640`, `height = 400`, `start = (100, 200, 0)`). -/
noncomputable def initState : RState :=
  { px := 100, py := 200, vx := 0, vy := 0, angle := 0, laps := 0, timeMs := 0,
    lastCrossedDir := 0 }

/-- The step invariant behind the speed clamp: squared speed at most
`maxSpeed²` and position inside the default track bounds. -/
def SpeedInv (s : RState) : Prop :=
  s.vx ^ 2 + s.vy ^ 2 ≤ maxSpeed ^ 2 ∧
  10 ≤ s.px ∧ s.px ≤ 630 ∧ 10 ≤ s.py ∧ s.py ≤ 390

theorem velAfterClamp_le (vx vy : ℝ) :
    (velAfterClamp vx vy).1 ^ 2 + (velAfterClamp vx vy).2 ^ 2 ≤ maxSpeed ^ 2 := by
  unfold velAfterClamp
  dsimp only
  have hS : 0 ≤ vx * vx + vy * vy := add_nonneg (mul_self_nonneg vx) (mul_self_nonneg vy)
  have hsq : Real.sqrt (vx * vx + vy * vy) ^ 2 = vx * vx + vy * vy := Real.sq_sqrt hS
  split_ifs with h
  · have hm : (0 : ℝ) < maxSpeed := by unfold maxSpeed; norm_num
    have hspos : 0 < Real.sqrt (vx * vx + vy * vy) := lt_trans hm h
    have hne : Real.sqrt (vx * vx + vy * vy) ≠ 0 := ne_of_gt hspos
    have hcalc : (vx * (maxSpeed / Real.sqrt (vx * vx + vy * vy))) ^ 2 +
        (vy * (maxSpeed / Real.sqrt (vx * vx + vy * vy))) ^ 2 =
        (vx * vx + vy * vy) * maxSpeed ^ 2 / Real.sqrt (vx * vx + vy * vy) ^ 2 := by
      field_simp
      ring
    have hSpos : 0 < vx * vx + vy * vy := by nlinarith [hsq]
    rw [hcalc, hsq, mul_comm, mul_div_assoc, div_self (ne_of_gt hSpos), mul_one]
  · push_neg at h
    have hs0 : 0 ≤ Real.sqrt (vx * vx + vy * vy) := Real.sqrt_nonneg _
    calc vx ^ 2 + vy ^ 2 = Real.sqrt (vx * vx + vy * vy) ^ 2 := by rw [hsq]; ring
      _ ≤ maxSpeed ^ 2 := by
        apply pow_le_pow_left hs0 h

theorem clampAxis_pos_lo (lo hi p v : ℝ) (h : lo ≤ hi) : lo ≤ (clampAxis lo hi p v).1 := by
  unfold clampAxis
  dsimp only
  split_ifs <;> linarith

theorem clampAxis_pos_hi (lo hi p v : ℝ) (h : lo ≤ hi) : (clampAxis lo hi p v).1 ≤ hi := by
  unfold clampAxis
  dsimp only
  split_ifs <;> linarith

theorem clampAxis_vel (lo hi p v : ℝ) :
    (clampAxis lo hi p v).2 = 0 ∨
    ((clampAxis lo hi p v).2 = v ∧ lo ≤ p ∧ p ≤ hi) := by
  unfold clampAxis
  dsimp only
  split_ifs with h1 h2 h3
  · exact Or.inl rfl
  · exact Or.inl rfl
  · exact Or.inl rfl
  · exact Or.inr ⟨rfl, by linarith, by linarith⟩

theorem lapUpdate_px (w dt : ℝ) (m : RState) : (lapUpdate w dt m).px = m.px := by
  unfold lapUpdate
  dsimp only
  split <;> rfl

theorem lapUpdate_py (w dt : ℝ) (m : RState) : (lapUpdate w dt m).py = m.py := by
  unfold lapUpdate
  dsimp only
  split <;> rfl

theorem lapUpdate_vx (w dt : ℝ) (m : RState) : (lapUpdate w dt m).vx = m.vx := by
  unfold lapUpdate
  dsimp only
  split <;> rfl

theorem lapUpdate_vy (w dt : ℝ) (m : RState) : (lapUpdate w dt m).vy = m.vy := by
  unfold lapUpdate
  dsimp only
  split <;> rfl

theorem integrate_laps (w h : ℝ) (inp : RInput) (dt : ℝ) (s : RState) :
    (integrate w h inp dt s).laps = s.laps := rfl

/-- Combined bound for the two clamped axes: with the post-clamp squared
speed at most `maxSpeed²`, frictional decay `1 - friction·dt`, and each
final component either zeroed by the wall clamp or having moved at most the
in-bounds range, the final squared speed stays at most `maxSpeed²`. -/
theorem axis_sum_bound (w1 w2 fr dtv cx cy : ℝ)
    (hw : w1 ^ 2 + w2 ^ 2 ≤ maxSpeed ^ 2)
    (hfr : fr = 1 - friction * dtv) (hdt : 0 ≤ dtv)
    (hcx : cx = 0 ∨ (cx = w1 * fr ∧ (w1 * fr * dtv) ^ 2 ≤ 620 ^ 2))
    (hcy : cy = 0 ∨ (cy = w2 * fr ∧ (w2 * fr * dtv) ^ 2 ≤ 380 ^ 2)) :
    cx ^ 2 + cy ^ 2 ≤ maxSpeed ^ 2 := by
  have hms : maxSpeed ^ 2 = 0.25 := by unfold maxSpeed; norm_num
  rw [hms] at hw ⊢
  by_cases hdt2 : dtv ≤ 2000
  · have hfr2 : fr ^ 2 ≤ 1 := by
      rw [hfr]
      unfold friction
      nlinarith
    have h3 : (w1 * fr) ^ 2 + (w2 * fr) ^ 2 ≤ 0.25 := by
      nlinarith [sq_nonneg w1, sq_nonneg w2, sq_nonneg fr]
    rcases hcx with h | ⟨h, _⟩ <;> rcases hcy with h' | ⟨h', _⟩ <;> subst h <;> subst h' <;>
      nlinarith [sq_nonneg (w1 * fr), sq_nonneg (w2 * fr)]
  · push_neg at hdt2
    have hdtsq : 4000000 < dtv ^ 2 := by nlinarith
    have hex : (w1 * fr) ^ 2 * dtv ^ 2 = (w1 * fr * dtv) ^ 2 := by ring
    have hey : (w2 * fr) ^ 2 * dtv ^ 2 = (w2 * fr * dtv) ^ 2 := by ring
    rcases hcx with h | ⟨h, hbx⟩ <;> rcases hcy with h' | ⟨h', hby⟩ <;> subst h <;> subst h'
    · norm_num
    · nlinarith [sq_nonneg (w2 * fr), hby, hdtsq, hey]
    · nlinarith [sq_nonneg (w1 * fr), hbx, hdtsq, hex]
    · nlinarith [sq_nonneg (w1 * fr), sq_nonneg (w2 * fr), hbx, hby, hdtsq, hex, hey]

/-- One `step` of the default-configured engine preserves the speed-clamp
invariant, for any input flags and any non-negative `dt`. -/
theorem speedInv_step (inp : RInput) (dt : ℝ) (hdt : 0 ≤ dt) (s : RState)
    (h : SpeedInv s) : SpeedInv (racerStep 640 400 inp dt s) := by
  obtain ⟨hv, hx1, hx2, hy1, hy2⟩ := h
  have hlap : ∀ m : RState, SpeedInv m → SpeedInv (lapUpdate 640 dt m) := by
    intro m hm
    unfold SpeedInv at hm ⊢
    rw [lapUpdate_px, lapUpdate_py, lapUpdate_vx, lapUpdate_vy]
    exact hm
  apply hlap
  unfold integrate
  dsimp only
  rw [show (640 : ℝ) - 10 = 630 by norm_num, show (400 : ℝ) - 10 = 390 by norm_num]
  unfold SpeedInv
  dsimp only
  refine ⟨?_, ?_, ?_, ?_, ?_⟩
  case refine_2 => exact clampAxis_pos_lo _ _ _ _ (by norm_num)
  case refine_3 => exact clampAxis_pos_hi _ _ _ _ (by norm_num)
  case refine_4 => exact clampAxis_pos_lo _ _ _ _ (by norm_num)
  case refine_5 => exact clampAxis_pos_hi _ _ _ _ (by norm_num)
  apply axis_sum_bound ((velAfterClamp (velPreClamp inp dt s).1 (velPreClamp inp dt s).2).1)
    ((velAfterClamp (velPreClamp inp dt s).1 (velPreClamp inp dt s).2).2)
    (1 - friction * dt) dt _ _ (velAfterClamp_le _ _) rfl hdt
  · rcases clampAxis_vel 10 630
        (s.px + (velAfterClamp (velPreClamp inp dt s).1 (velPreClamp inp dt s).2).1 *
          (1 - friction * dt) * dt)
        ((velAfterClamp (velPreClamp inp dt s).1 (velPreClamp inp dt s).2).1 *
          (1 - friction * dt)) with hc | ⟨heq, hl, hr⟩
    · exact Or.inl hc
    · refine Or.inr ⟨heq, ?_⟩
      nlinarith [hl, hr, hx1, hx2]
  · rcases clampAxis_vel 10 390
        (s.py + (velAfterClamp (velPreClamp inp dt s).1 (velPreClamp inp dt s).2).2 *
          (1 - friction * dt) * dt)
        ((velAfterClamp (velPreClamp inp dt s).1 (velPreClamp inp dt s).2).2 *
          (1 - friction * dt)) with hc | ⟨heq, hl, hr⟩
    · exact Or.inl hc
    · refine Or.inr ⟨heq, ?_⟩
      nlinarith [hl, hr, hy1, hy2]

theorem speedInv_runSteps (l : List (RInput × ℝ)) :
    ∀ s : RState, SpeedInv s → (∀ x ∈ l, 0 ≤ x.2) →
      SpeedInv (runSteps 640 400 l s) := by
  induction l with
  | nil => exact fun s h _ => h
  | cons a t ih =>
    intro s h hdt
    exact ih (racerStep 640 400 a.1 a.2 s)
      (speedInv_step a.1 a.2 (hdt a (List.mem_cons_self _ _)) s h)
      (fun x hx => hdt x (List.mem_cons_of_mem _ hx))

/-- C4.  For every sequence of `step(dtMs)` calls on the default-configured
engine with arbitrary non-negative `dtMs` values and the accelerate flag
held (the other flags arbitrary), the velocity magnitude at the end of the
sequence never exceeds `params.maxSpeed`; since the sequence is arbitrary,
this bounds the speed at the end of every step. -/
theorem racer_speed_clamp (l : List (RInput × ℝ))
    (hl : ∀ x ∈ l, 0 ≤ x.2 ∧ x.1.up = true) :
    Real.sqrt ((runSteps 640 400 l initState).vx ^ 2 +
      (runSteps 640 400 l initState).vy ^ 2) ≤ maxSpeed := by
  have hInv : SpeedInv (runSteps 640 400 l initState) := by
    refine speedInv_runSteps l initState ?_ (fun x hx => (hl x hx).1)
    unfold SpeedInv initState
    refine ⟨?_, ?_, ?_, ?_, ?_⟩ <;> norm_num [maxSpeed]
  have hms : (0 : ℝ) ≤ maxSpeed := by unfold maxSpeed; norm_num
  calc Real.sqrt ((runSteps 640 400 l initState).vx ^ 2 +
      (runSteps 640 400 l initState).vy ^ 2)
      ≤ Real.sqrt (maxSpeed ^ 2) := Real.sqrt_le_sqrt hInv.1
    _ = maxSpeed := Real.sqrt_sq hms

/-- The input record with only the accelerate flag held. -/
def accelInput : RInput := ⟨true, false, false, false⟩

theorem racer_speed_clamp_witness :
    Real.sqrt ((runSteps 640 400 [(accelInput, 1000)] initState).vx ^ 2 +
      (runSteps 640 400 [(accelInput, 1000)] initState).vy ^ 2) ≤ maxSpeed :=
  racer_speed_clamp [(accelInput, 1000)] (by
    intro x hx
    rw [List.mem_singleton] at hx
    subst hx
    exact ⟨by norm_num, rfl⟩)

/-- C7.  During a `step`, with `prevY` the reconstructed previous y
(position minus the last velocity delta): an upward straddle of the finish
line `y = 60` inside the segment's x-range increments `laps` by exactly 1
and records crossing direction 1; a downward straddle leaves `laps`
unchanged and records direction −1; and a step with no crossing leaves
`laps` unchanged and records direction 0. -/
theorem racer_lap_counting (width height : ℝ) (inp : RInput) (dt : ℝ) (s : RState) :
    ((racerStep width height inp dt s).py - (racerStep width height inp dt s).vy * dt > 60 ∧
      (racerStep width height inp dt s).py ≤ 60 ∧
      width / 2 - 40 ≤ (racerStep width height inp dt s).px ∧
      (racerStep width height inp dt s).px ≤ width / 2 + 40 →
      (racerStep width height inp dt s).laps = s.laps + 1 ∧
      (racerStep width height inp dt s).lastCrossedDir = 1) ∧
    ((racerStep width height inp dt s).py - (racerStep width height inp dt s).vy * dt < 60 ∧
      (racerStep width height inp dt s).py ≥ 60 ∧
      width / 2 - 40 ≤ (racerStep width height inp dt s).px ∧
      (racerStep width height inp dt s).px ≤ width / 2 + 40 →
      (racerStep width height inp dt s).laps = s.laps ∧
      (racerStep width height inp dt s).lastCrossedDir = -1) ∧
    (¬ ((((racerStep width height inp dt s).py - (racerStep width height inp dt s).vy * dt > 60 ∧
          (racerStep width height inp dt s).py ≤ 60) ∨
        ((racerStep width height inp dt s).py - (racerStep width height inp dt s).vy * dt < 60 ∧
          (racerStep width height inp dt s).py ≥ 60)) ∧
        width / 2 - 40 ≤ (racerStep width height inp dt s).px ∧
        (racerStep width height inp dt s).px ≤ width / 2 + 40) →
      (racerStep width height inp dt s).laps = s.laps ∧
      (racerStep width height inp dt s).lastCrossedDir = 0) := by
  have hps : racerStep width height inp dt s =
      lapUpdate width dt (integrate width height inp dt s) := rfl
  rw [hps]
  rw [lapUpdate_px, lapUpdate_py, lapUpdate_vy]
  have hlaps : (integrate width height inp dt s).laps = s.laps :=
    integrate_laps width height inp dt s
  rw [← hlaps]
  unfold lapUpdate
  dsimp only
  refine ⟨?_, ?_, ?_⟩
  · rintro ⟨h1, h2, h3, h4⟩
    split_ifs with hA hB hC hD
    · exact ⟨rfl, rfl⟩
    · exact absurd rfl hC
    · exact absurd ⟨h1, h2⟩ hB
    · exact absurd ⟨h1, h2⟩ hB
    · exact absurd ⟨Or.inl ⟨h1, h2⟩, h3, h4⟩ hA
  · rintro ⟨h1, h2, h3, h4⟩
    split_ifs with hA hB hC hD
    · exact absurd hB.1 (lt_asymm h1)
    · exact absurd hB.1 (lt_asymm h1)
    · exact absurd hD (by decide)
    · exact ⟨rfl, rfl⟩
    · exact absurd ⟨Or.inr ⟨h1, h2⟩, h3, h4⟩ hA
  · intro hnc
    split_ifs with hA hB hC
    · exact absurd hA hnc
    · exact absurd hA hnc
    · exact absurd hA hnc
    · exact absurd hA hnc
    · exact ⟨rfl, rfl⟩

/-- The input record with no flag held. -/
def idleInput : RInput := ⟨false, false, false, false⟩

/-- Witness state for C7: the car at `x = 320` just above the finish line,
gliding upward; after a 1000 ms step it sits on the line with the
reconstructed previous y above it. -/
noncomputable def lapState : RState :=
  { px := 320, py := 65, vx := 0, vy := -0.1, angle := 0, laps := 0, timeMs := 0,
    lastCrossedDir := 0 }

theorem integrate_lapState :
    integrate 640 400 idleInput 1000 lapState =
      { px := 320, py := 55, vx := 0, vy := -0.01, angle := 0, laps := 0,
        timeMs := 1000, lastCrossedDir := 0 } := by
  have hvp : velPreClamp idleInput 1000 lapState = (0, -0.1) := by
    unfold velPreClamp angleAfterTurn
    norm_num [idleInput, lapState]
  have hvc : velAfterClamp (0 : ℝ) (-0.1) = (0, -0.1) := by
    unfold velAfterClamp
    dsimp only
    rw [if_neg]
    rw [not_lt, show (0 : ℝ) * 0 + -0.1 * -0.1 = 0.1 ^ 2 by norm_num,
      Real.sqrt_sq (by norm_num)]
    unfold maxSpeed
    norm_num
  have hfr : (1 : ℝ) - friction * 1000 = 0.1 := by
    unfold friction
    norm_num
  unfold integrate
  dsimp only
  rw [hvp]
  dsimp only
  rw [hvc]
  dsimp only
  rw [hfr]
  have hx : clampAxis 10 (640 - 10) (lapState.px + 0 * 0.1 * 1000) (0 * 0.1) = (320, 0) := by
    unfold clampAxis lapState
    norm_num
  have hy : clampAxis 10 (400 - 10) (lapState.py + -0.1 * 0.1 * 1000) (-0.1 * 0.1) =
      (55, -0.01) := by
    unfold clampAxis lapState
    norm_num
  rw [hx, hy]
  unfold angleAfterTurn
  norm_num [idleInput, lapState, RState.mk.injEq]

theorem racer_lap_counting_witness :
    (racerStep 640 400 idleInput 1000 lapState).laps = lapState.laps + 1 ∧
    (racerStep 640 400 idleInput 1000 lapState).lastCrossedDir = 1 := by
  have hpy : (racerStep 640 400 idleInput 1000 lapState).py = 55 := by
    show (lapUpdate 640 1000 (integrate 640 400 idleInput 1000 lapState)).py = 55
    rw [lapUpdate_py, integrate_lapState]
  have hpx : (racerStep 640 400 idleInput 1000 lapState).px = 320 := by
    show (lapUpdate 640 1000 (integrate 640 400 idleInput 1000 lapState)).px = 320
    rw [lapUpdate_px, integrate_lapState]
  have hvy : (racerStep 640 400 idleInput 1000 lapState).vy = -0.01 := by
    show (lapUpdate 640 1000 (integrate 640 400 idleInput 1000 lapState)).vy = -0.01
    rw [lapUpdate_vy, integrate_lapState]
  refine (racer_lap_counting 640 400 idleInput 1000 lapState).1 ⟨?_, ?_, ?_, ?_⟩
  · rw [hpy, hvy]
    norm_num
  · rw [hpy]
    norm_num
  · rw [hpx]
    norm_num
  · rw [hpx]
    norm_num

end Racer
